import Mathlib

/-!
# AURA front end (`src/public/script.js`): a shallow embedding

The page controller `AuraApp` is embedded as pure functions on an explicit
application state.  The state holds the two fields of the controller that the
handlers read (`currentImageId`, `isListening`), the properties of the page
elements the handlers read or write, and a log of the outward calls they make
(`fetch`, `setTimeout`, `recognition.start`, `console.log`, `focus`) in the
order they are made.

An `async` method is embedded as two functions: the part that runs up to its
`await` (it returns the state at that point and, when a request was issued, the
locals that are still needed afterwards) and the part that runs when the
request settles.  The second takes the state of the page at settlement as an
argument, so whatever other handlers ran in between is accounted for.

Strings are Lean strings (sequences of code points).  All characters the code
tests for (white space, the letters of the wake phrases) lie in the Basic
Multilingual Plane, where a code point is one UTF-16 code unit.

Numbers of the particle animation are double-precision numbers: a number is
given by its value, a rational that is the result of rounding, and every sum,
difference and product is the exact result rounded to the nearest double, ties
to even, subnormals included.  The two zeros are one value.  `NaN` and the
infinities are left out: the creation loop, the canvas size and the pointer
events supply finite numbers only, and a frame moves a coordinate by its
velocity and by at most one unit toward the pointer; a result of magnitude
`2^1024` or more (an infinity in the browser) is rounded here as if the
exponent range had no upper end.
-/

namespace Aura

/-! ## JavaScript values and strings -/

/-- A value as it comes out of `response.json()` (or a missing property).
Numbers, objects and arrays carry the text that a template literal renders for
them; for a number `isZero` says whether it is `0`. -/
inductive JsValue where
  | undefined
  | null
  | bool (b : Bool)
  | number (isZero : Bool) (text : String)
  | string (s : String)
  | object (text : String)
  deriving DecidableEq

/-- The truthiness test `if (v)` / `!v` / `v && …`. -/
def truthy : JsValue → Bool
  | .undefined => false
  | .null => false
  | .bool b => b
  | .number isZero _ => !isZero
  | .string s => s != ""
  | .object _ => true

/-- The text of a value inside a template literal. -/
def toStr : JsValue → String
  | .undefined => "undefined"
  | .null => "null"
  | .bool true => "true"
  | .bool false => "false"
  | .number _ text => text
  | .string s => s
  | .object text => text

/-- White space and line terminators of ECMAScript: what `String.prototype.trim`
strips. -/
def isJsWhiteSpace (c : Char) : Bool :=
  let n := c.toNat
  n == 0x09 || n == 0x0A || n == 0x0B || n == 0x0C || n == 0x0D || n == 0x20 ||
  n == 0xA0 || n == 0x1680 || (0x2000 ≤ n && n ≤ 0x200A) || n == 0x2028 ||
  n == 0x2029 || n == 0x202F || n == 0x205F || n == 0x3000 || n == 0xFEFF

/-- Strips white space from both ends of a character sequence. -/
def trimChars (l : List Char) : List Char :=
  ((l.dropWhile isJsWhiteSpace).reverse.dropWhile isJsWhiteSpace).reverse

/-- The method `String.prototype.trim`. -/
def jsTrim (s : String) : String :=
  ⟨trimChars s.data⟩

/-- The `Canonicalize` operation of a regular expression with the `i` flag and without the
`u` flag, restricted to what a comparison with an ASCII pattern character can
see: an ASCII letter is upper-cased; a character outside ASCII is never mapped
into ASCII (ECMAScript keeps it when its upper case would be ASCII), so it is
left as it is. -/
def canonicalize (c : Char) : Char :=
  c.toUpper

/-- Whether the literal pattern `pat` matches at the start of `s`, ignoring
case. -/
def matchesAt : List Char → List Char → Bool
  | [], _ => true
  | _ :: _, [] => false
  | p :: ps, c :: cs => canonicalize c == canonicalize p && matchesAt ps cs

/-- The first alternative of `/hey aura|aura/gi`. -/
def heyAura : List Char :=
  ['h', 'e', 'y', ' ', 'a', 'u', 'r', 'a']

/-- The second alternative of `/hey aura|aura/gi`. -/
def aura : List Char :=
  ['a', 'u', 'r', 'a']

/-- The call `replace(/hey aura|aura/gi, '')` on a character sequence, with `skip`
characters of a match still to be consumed.  At each position the
alternatives are tried in order; after a match the scan resumes behind it. -/
def replaceFrom : Nat → List Char → List Char
  | _, [] => []
  | skip + 1, _ :: cs => replaceFrom skip cs
  | 0, c :: cs =>
    if matchesAt heyAura (c :: cs) then replaceFrom 7 cs
    else if matchesAt aura (c :: cs) then replaceFrom 3 cs
    else c :: replaceFrom 0 cs

/-- The call `transcript.replace(/hey aura|aura/gi, '')`. -/
def replaceWakePhrases (l : List Char) : List Char :=
  replaceFrom 0 l

/-- The query of `handleWakeWord`:
`transcript.replace(/hey aura|aura/gi, '').trim()`. -/
def extractQuery (transcript : String) : String :=
  jsTrim ⟨replaceWakePhrases transcript.data⟩

/-- The call `s.includes(p)` on character sequences. -/
def includes : List Char → List Char → Bool
  | [], p => p.isEmpty
  | c :: cs, p => p.isPrefixOf (c :: cs) || includes cs p

/-! ## Application state -/

/-- The status area `#status`. -/
structure StatusArea where
  innerHTML : String
  className : String
  display : String
  deriving DecidableEq

/-- A button of the page. -/
structure Control where
  disabled : Bool
  innerHTML : String
  deriving DecidableEq

/-- The JSON body of `POST /api/analyze-image`. -/
structure AnalyzeRequest where
  image_id : JsValue
  query : String
  voice_response : Bool
  model : String
  session_id : String
  deriving DecidableEq

/-- The two callbacks the code passes to `setTimeout`. -/
inductive TimerCallback where
  | hideStatus
  | restartRecognition
  deriving DecidableEq

/-- An outward call made by a handler. -/
inductive Effect where
  | consoleLog (text : String)
  | fetchUpload (sessionHeader : String) (file : String)
  | fetchAnalyze (sessionHeader : String) (body : AnalyzeRequest)
  | setTimeout (callback : TimerCallback) (ms : Nat)
  | recognitionStart
  | focusQueryInput
  | imageInputClick
  deriving DecidableEq

/-- The controller's fields and the page as the handlers see it. -/
structure AppState where
  currentImageId : JsValue
  isListening : Bool
  hasRecognition : Bool
  sessionId : String
  queryInput : String
  voiceToggle : Bool
  modelSelect : String
  imageInputFiles : List String
  uploadAreaHtml : String
  uploadAreaDragover : Bool
  uploadBtn : Control
  analyzeBtn : Control
  status : StatusArea
  indicatorText : String
  indicatorListening : Bool
  effects : List Effect
  deriving DecidableEq

/-- Whether an effect is a network request. -/
def Effect.isRequest : Effect → Bool
  | .fetchUpload _ _ => true
  | .fetchAnalyze _ _ => true
  | _ => false

/-- The network requests issued so far, oldest first. -/
def AppState.requests (s : AppState) : List Effect :=
  s.effects.filter Effect.isRequest

/-- Appends an outward call to the log. -/
def emit (e : Effect) (s : AppState) : AppState :=
  { s with effects := s.effects ++ [e] }

/-- The method `showStatus(message, type)`. -/
def showStatus (message type : String) (s : AppState) : AppState :=
  let s1 := { s with status := ⟨message, "status " ++ type, "block"⟩ }
  if type = "success" then emit (.setTimeout .hideStatus 10000) s1 else s1

/-- The callback `showStatus` schedules for success messages. -/
def hideStatus (s : AppState) : AppState :=
  { s with status := { s.status with display := "none" } }

/-- The method `updateWakeWordIndicator(text, listening)`. -/
def updateWakeWordIndicator (text : String) (listening : Bool) (s : AppState) : AppState :=
  { s with indicatorText := text, indicatorListening := listening }

/-- The prompt the indicator shows while waiting for the wake word. -/
def listeningPrompt : String :=
  "🎤 Say \"Hey AURA\" to start"

/-! ## Network outcomes -/

/-- A response as `fetch` resolves with it. -/
structure Response where
  status : Nat
  statusText : String
  deriving DecidableEq

/-- The flag `response.ok`: the status is in the range 200–299. -/
def Response.ok (r : Response) : Bool :=
  200 ≤ r.status && r.status ≤ 299

/-- What `await response.json()` gives: it rejects (`malformed`), or the body
is the JSON `null`, on which reading a property throws (`nullBody`, with the
message of that `TypeError`), or it is a value whose properties can be read. -/
inductive Body (α : Type) where
  | malformed (message : String)
  | nullBody (message : String)
  | value (data : α)

/-- How a `fetch` settles: the promise rejects, or resolves with a response. -/
inductive FetchOutcome (α : Type) where
  | rejected (message : String)
  | resolved (response : Response) (body : Body α)

/-- The properties `analyzeImage` reads of the analyze response. -/
structure AnalyzeData where
  description : JsValue
  audio_url : JsValue
  use_case_detected : JsValue
  deriving DecidableEq

/-- The property `uploadImage` reads of the upload response. -/
structure UploadData where
  image_id : JsValue
  deriving DecidableEq

/-! ## Analysis -/

/-- The locals of `analyzeImage` that are still read after the `await`. -/
structure AnalyzePending where
  voiceResponse : Bool
  deriving DecidableEq

/-- The markup of the inline audio player for a source address. -/
def audioPlayerHtml (src : String) : String :=
  "<br><br><audio controls class=\"audio-player\"><source src=\"" ++ src ++
    "\" type=\"audio/mpeg\">Your browser does not support audio.</audio>"

/-- The markup of the detected-use-case annotation. -/
def useCaseHtml (label : String) : String :=
  "<br><small>Detected use case: " ++ label ++ "</small>"

/-- The `resultHtml` that `analyzeImage` builds from the response data. -/
def resultHtml (data : AnalyzeData) (voiceResponse : Bool) : String :=
  let r0 := "<strong>Analysis:</strong> " ++ toStr data.description
  let r1 := if truthy data.audio_url && voiceResponse then
      r0 ++ audioPlayerHtml (toStr data.audio_url) else r0
  if truthy data.use_case_detected then
    r1 ++ useCaseHtml (toStr data.use_case_detected) else r1

/-- The text of the error thrown for a response that is not ok. -/
def httpError (r : Response) : String :=
  "HTTP " ++ toString r.status ++ ": " ++ r.statusText

/-- The method `analyzeImage()` up to its `await fetch(…)`: the precondition checks, the
reading of the form, the disabling of the button and the request.  The second
component is `none` when the method returned before issuing a request. -/
def analyzeImage (s : AppState) : AppState × Option AnalyzePending :=
  if !truthy s.currentImageId then
    (showStatus "Please upload an image first" "error" s, none)
  else
    let query := jsTrim s.queryInput
    if query = "" then
      (showStatus "Please enter a question about the image" "error" s, none)
    else
      let voiceResponse := s.voiceToggle
      let selectedModel := s.modelSelect
      let s1 := { s with
        analyzeBtn := ⟨true, "<span class=\"loading\"></span>Analyzing..."⟩ }
      let body : AnalyzeRequest :=
        ⟨s1.currentImageId, query, voiceResponse, selectedModel, s1.sessionId⟩
      (emit (.fetchAnalyze s1.sessionId body) s1, some ⟨voiceResponse⟩)

/-- The rest of `analyzeImage()`, run on the page as it is when the request
settles: the remainder of the `try` block or the `catch` block, then the
`finally` block. -/
def analyzeImageSettled (p : AnalyzePending) (o : FetchOutcome AnalyzeData)
    (s : AppState) : AppState :=
  let s1 :=
    match o with
    | .rejected message => showStatus ("❌ Analysis failed: " ++ message) "error" s
    | .resolved r body =>
      if !r.ok then showStatus ("❌ Analysis failed: " ++ httpError r) "error" s
      else match body with
        | .malformed message => showStatus ("❌ Analysis failed: " ++ message) "error" s
        | .nullBody message => showStatus ("❌ Analysis failed: " ++ message) "error" s
        | .value data =>
          { showStatus (resultHtml data p.voiceResponse) "success" s with queryInput := "" }
  updateWakeWordIndicator listeningPrompt false
    { s1 with analyzeBtn := ⟨false, "Analyze Image"⟩ }

/-! ## Upload -/

/-- The method `uploadImage()` up to its `await fetch(…)`; the second component says
whether a request was issued. -/
def uploadImage (s : AppState) : AppState × Bool :=
  match s.imageInputFiles.head? with
  | none => (showStatus "Please select an image first" "error" s, false)
  | some file =>
    let s1 := { s with
      uploadBtn := ⟨true, "<span class=\"loading\"></span>Uploading..."⟩ }
    (emit (.fetchUpload s1.sessionId file) s1, true)

/-- The rest of `uploadImage()`, run on the page as it is when the request
settles. -/
def uploadImageSettled (o : FetchOutcome UploadData) (s : AppState) : AppState :=
  let s1 :=
    match o with
    | .rejected message => showStatus ("❌ Upload failed: " ++ message) "error" s
    | .resolved r body =>
      if !r.ok then showStatus ("❌ Upload failed: " ++ httpError r) "error" s
      else match body with
        | .malformed message => showStatus ("❌ Upload failed: " ++ message) "error" s
        | .nullBody message => showStatus ("❌ Upload failed: " ++ message) "error" s
        | .value data =>
          emit .focusQueryInput
            (showStatus "✅ Image uploaded successfully! Ready to analyze." "success"
              { s with currentImageId := data.image_id })
  { s1 with uploadBtn := ⟨false, "Upload Image"⟩ }

/-! ## Wake word -/

/-- The method `handleWakeWord(transcript)`; the second component is the pending analysis
when one was started. -/
def handleWakeWord (transcript : String) (s : AppState) : AppState × Option AnalyzePending :=
  let s1 := emit (.consoleLog "👋 Wake word detected!") s
  let s2 := updateWakeWordIndicator "Wake word detected! Processing..." true s1
  let query := extractQuery transcript
  if query ≠ "" then
    analyzeImage { s2 with queryInput := query }
  else
    (updateWakeWordIndicator listeningPrompt false
      (showStatus "I heard you! Please ask a question about your image." "info" s2), none)

/-! ## Speech recognition handlers -/

/-- The handler `recognition.onstart`. -/
def onstart (s : AppState) : AppState :=
  updateWakeWordIndicator "Listening..." true
    (emit (.consoleLog "🎤 Voice recognition started") s)

/-- The handler `recognition.onresult`.  `lowered` is what the platform's
`toLowerCase()` returns for the transcript of the last result. -/
def onresult (lowered : String) (s : AppState) : AppState × Option AnalyzePending :=
  let transcript := jsTrim lowered
  let s1 := emit (.consoleLog ("🗣️ Heard: " ++ transcript)) s
  if includes transcript.data heyAura || includes transcript.data aura then
    handleWakeWord transcript s1
  else
    (s1, none)

/-- The handler `recognition.onerror`. -/
def onerror (error : String) (s : AppState) : AppState :=
  updateWakeWordIndicator listeningPrompt false
    (emit (.consoleLog ("Speech recognition error: " ++ error)) s)

/-- The handler `recognition.onend`. -/
def onend (s : AppState) : AppState :=
  if !s.isListening then
    emit (.setTimeout .restartRecognition 1000)
      (updateWakeWordIndicator listeningPrompt false s)
  else s

/-- The callback `onend` schedules: `recognition.start()` inside `try`, the
exception (if `start` throws one, `startError` is its text) logged in `catch`. -/
def restartRecognition (startError : Option String) (s : AppState) : AppState :=
  let s1 := emit .recognitionStart s
  match startError with
  | none => s1
  | some e => emit (.consoleLog ("Recognition restart failed: " ++ e)) s1

/-- The method `setupVoiceRecognition()`: `supported` says whether the window
has a speech recognition constructor, `startError` is the exception of the
initial `recognition.start()`, if it throws. -/
def setupVoiceRecognition (supported : Bool) (startError : Option String)
    (s : AppState) : AppState :=
  if !supported then emit (.consoleLog "Speech recognition not supported") s
  else
    let s1 := emit .recognitionStart { s with hasRecognition := true }
    match startError with
    | none => s1
    | some e => emit (.consoleLog ("Initial recognition start failed: " ++ e)) s1

/-! ## File selection -/

/-- The method `updateUploadArea(file)`, `file` being the name of the file. -/
def updateUploadArea (file : Option String) (s : AppState) : AppState :=
  match file with
  | some name =>
    { s with uploadAreaHtml := "<div class=\"upload-text\">📸 Selected: " ++ name ++ "</div>" }
  | none =>
    { s with uploadAreaHtml :=
        "<div class=\"upload-text\">📸 Click to select an image or drag & drop</div>" }

/-- The method `handleDragOver(e)`. -/
def handleDragOver (s : AppState) : AppState :=
  { s with uploadAreaDragover := true }

/-- The method `handleDragLeave(e)`. -/
def handleDragLeave (s : AppState) : AppState :=
  { s with uploadAreaDragover := false }

/-- The method `handleDrop(e)`, `files` being `e.dataTransfer.files`. -/
def handleDrop (files : List String) (s : AppState) : AppState :=
  let s1 := { s with uploadAreaDragover := false }
  match files with
  | [] => s1
  | file :: _ => updateUploadArea (some file) { s1 with imageInputFiles := files }

/-- The method `handleFileSelect(e)`, run on the `change` event of the file
input after the browser has set its `files`. -/
def handleFileSelect (files : List String) (s : AppState) : AppState :=
  let s1 := { s with imageInputFiles := files }
  match files.head? with
  | some file => updateUploadArea (some file) s1
  | none => s1

/-- The `keypress` listener of the query input. -/
def onKeypress (key : String) (shiftKey : Bool) (s : AppState) :
    AppState × Option AnalyzePending :=
  if key = "Enter" && !shiftKey then analyzeImage s else (s, none)

/-! ## Construction -/

/-- The constructor of `AuraApp` on the page as loaded: `page` gives the
elements, `sessionId` is the identifier `generateSessionId()` draws. -/
def construct (sessionId : String) (supported : Bool) (startError : Option String)
    (page : AppState) : AppState :=
  let s0 := { page with
    currentImageId := .null, isListening := false, hasRecognition := false,
    sessionId := sessionId }
  let s1 := showStatus "Ready for image upload and voice commands" "info"
    (emit (.consoleLog "🚀 AURA Advanced Vision Assistant initialized") s0)
  setupVoiceRecognition supported startError s1

/-! ## The page as an event system -/

/-- The application together with what the platform holds for it: the analyze
requests in flight (each with the locals of its call), the number of upload
requests in flight, and the timeouts scheduled and not yet run. -/
structure World where
  app : AppState
  analyses : List AnalyzePending
  uploads : Nat
  timers : List TimerCallback

/-- The callbacks of the `setTimeout` calls among the given effects. -/
def timeoutsOf : List Effect → List TimerCallback
  | [] => []
  | .setTimeout cb _ :: es => cb :: timeoutsOf es
  | _ :: es => timeoutsOf es

/-- The world after a handler turned the application into `s`: the timeouts
the handler scheduled (its new `setTimeout` calls) are added. -/
def World.advance (w : World) (s : AppState) : World :=
  { w with app := s,
           timers := w.timers ++ timeoutsOf (s.effects.drop w.app.effects.length) }

/-- The world after a handler that may have called `analyzeImage()`. -/
def World.advanceAnalysis (w : World) (r : AppState × Option AnalyzePending) : World :=
  let w1 := w.advance r.1
  match r.2 with
  | some p => { w1 with analyses := w1.analyses ++ [p] }
  | none => w1

/-- What can happen to the page. -/
inductive Event where
  | recognitionStarted
  | recognitionResult (lowered : String)
  | recognitionError (error : String)
  | recognitionEnded
  | timeout (index : Nat) (startError : Option String)
  | keypress (key : String) (shiftKey : Bool)
  | analyzeCalled
  | analyzeSettled (index : Nat) (outcome : FetchOutcome AnalyzeData)
  | uploadCalled
  | uploadSettled (outcome : FetchOutcome UploadData)
  | queryEdited (value : String)
  | voiceToggled (checked : Bool)
  | modelSelected (value : String)
  | fileSelected (files : List String)
  | dragOver
  | dragLeave
  | dropped (files : List String)
  | uploadAreaClicked

/-- One event: the handler registered for it runs to completion.  The result
is `none` when the event cannot happen in this world (a recognition event
without a recogniser, the settlement of a request that is not in flight, a
timeout that is not scheduled). -/
def step (w : World) : Event → Option World
  | .recognitionStarted =>
    if w.app.hasRecognition then some (w.advance (onstart w.app)) else none
  | .recognitionResult lowered =>
    if w.app.hasRecognition then some (w.advanceAnalysis (onresult lowered w.app)) else none
  | .recognitionError error =>
    if w.app.hasRecognition then some (w.advance (onerror error w.app)) else none
  | .recognitionEnded =>
    if w.app.hasRecognition then some (w.advance (onend w.app)) else none
  | .timeout index startError =>
    match w.timers.get? index with
    | none => none
    | some .hideStatus =>
      some ({ w with timers := w.timers.eraseIdx index }.advance (hideStatus w.app))
    | some .restartRecognition =>
      some ({ w with timers := w.timers.eraseIdx index }.advance
        (restartRecognition startError w.app))
  | .keypress key shiftKey => some (w.advanceAnalysis (onKeypress key shiftKey w.app))
  | .analyzeCalled => some (w.advanceAnalysis (analyzeImage w.app))
  | .analyzeSettled index outcome =>
    match w.analyses.get? index with
    | none => none
    | some p =>
      some ({ w with analyses := w.analyses.eraseIdx index }.advance
        (analyzeImageSettled p outcome w.app))
  | .uploadCalled =>
    let r := uploadImage w.app
    some { w.advance r.1 with uploads := if r.2 then w.uploads + 1 else w.uploads }
  | .uploadSettled outcome =>
    match w.uploads with
    | 0 => none
    | n + 1 => some ({ w with uploads := n }.advance (uploadImageSettled outcome w.app))
  | .queryEdited value => some (w.advance { w.app with queryInput := value })
  | .voiceToggled checked => some (w.advance { w.app with voiceToggle := checked })
  | .modelSelected value => some (w.advance { w.app with modelSelect := value })
  | .fileSelected files => some (w.advance (handleFileSelect files w.app))
  | .dragOver => some (w.advance (handleDragOver w.app))
  | .dragLeave => some (w.advance (handleDragLeave w.app))
  | .dropped files => some (w.advance (handleDrop files w.app))
  | .uploadAreaClicked => some (w.advance (emit .imageInputClick w.app))

/-- Runs a sequence of events, oldest first. -/
def run (w : World) : List Event → Option World
  | [] => some w
  | e :: es => (step w e).bind fun w1 => run w1 es

/-- The world right after the `DOMContentLoaded` listener constructed the
application on `page`. -/
def initialWorld (sessionId : String) (supported : Bool) (startError : Option String)
    (page : AppState) : World :=
  let s := construct sessionId supported startError page
  { app := s, analyses := [], uploads := 0,
    timers := timeoutsOf (s.effects.drop page.effects.length) }

/-- A world the page can be in: the result of some events after construction. -/
def Reachable (page : AppState) (w : World) : Prop :=
  ∃ sessionId supported startError events,
    run (initialWorld sessionId supported startError page) events = some w

/-- Whether an event is the settlement of an upload with data: the one event
whose handler assigns `currentImageId`. -/
def Event.storesImage : Event → Bool
  | .uploadSettled (.resolved r (.value _)) => r.ok
  | _ => false

/-! ## Double-precision numbers -/

/-- Rounding of a rational to the nearest integer, a tie to the even one. -/
def roundHalfEven (q : ℚ) : ℤ :=
  if q - ⌊q⌋ < 1 / 2 then ⌊q⌋
  else if 1 / 2 < q - ⌊q⌋ then ⌊q⌋ + 1
  else if ⌊q⌋ % 2 = 0 then ⌊q⌋ else ⌊q⌋ + 1

/-- The binary exponent of the binade a value lies in: `e` with
`2^e ≤ |q| < 2^(e+1)`, and `-1022` for every smaller value (the subnormals
share the spacing of the lowest binade). -/
def exponentOf (q : ℚ) : ℤ :=
  max (Int.log 2 |q|) (-1022)

/-- The spacing of the doubles around a value: 52 fraction bits below its
exponent. -/
def ulpOf (q : ℚ) : ℚ :=
  2 ^ (exponentOf q - 52)

/-- Rounding to double precision: the nearest multiple of the spacing, a tie
to the even mantissa. -/
def roundDouble (q : ℚ) : ℚ :=
  roundHalfEven (q / ulpOf q) * ulpOf q

/-- A number of the animation: the value of a finite double. -/
structure JsNumber where
  val : ℚ
  isDouble : ∃ r : ℚ, val = roundDouble r

/-- The double nearest to a rational: a numeric literal, or an exact result
rounded. -/
def JsNumber.ofRat (q : ℚ) : JsNumber :=
  ⟨roundDouble q, q, rfl⟩

/-- The operator `+` on numbers. -/
def JsNumber.add (a b : JsNumber) : JsNumber :=
  .ofRat (a.val + b.val)

/-- The operator `-` on numbers. -/
def JsNumber.sub (a b : JsNumber) : JsNumber :=
  .ofRat (a.val - b.val)

/-- The operator `*` on numbers. -/
def JsNumber.mul (a b : JsNumber) : JsNumber :=
  .ofRat (a.val * b.val)

/-! ## Particle animation -/

/-- A particle of the network animation. -/
structure Particle where
  x : JsNumber
  y : JsNumber
  vx : JsNumber
  vy : JsNumber
  radius : JsNumber

/-- The size of the canvas. -/
structure Canvas where
  width : JsNumber
  height : JsNumber

/-- The pointer position the `mousemove` and `mouseleave` listeners keep;
`none` is `null`. -/
structure Mouse where
  x : Option JsNumber
  y : Option JsNumber

/-- The pointer after `mouseleave`, and before any `mousemove`. -/
def Mouse.absent : Mouse :=
  ⟨none, none⟩

/-- The test `mouse.x && mouse.y`: both coordinates are known and not `0`;
it gives the two coordinates when it passes. -/
def Mouse.known (m : Mouse) : Option (JsNumber × JsNumber) :=
  match m.x, m.y with
  | some mx, some my => if mx.val ≠ 0 ∧ my.val ≠ 0 then some (mx, my) else none
  | _, _ => none

/-- What one run of the `forEach` body of `animate` does to a particle: the
move, the bounce, and the attraction to the pointer.  `sqrt` is `Math.sqrt`,
which ECMAScript leaves to the implementation.  The drawing calls change no
particle. -/
def updateParticle (sqrt : JsNumber → JsNumber) (canvas : Canvas) (mouse : Mouse)
    (p : Particle) : Particle :=
  let x1 := p.x.add p.vx
  let y1 := p.y.add p.vy
  let vx1 := if x1.val < (JsNumber.ofRat 0).val ∨ x1.val > canvas.width.val then
    p.vx.mul (.ofRat (-1)) else p.vx
  let vy1 := if y1.val < (JsNumber.ofRat 0).val ∨ y1.val > canvas.height.val then
    p.vy.mul (.ofRat (-1)) else p.vy
  match mouse.known with
  | some (mx, my) =>
    let dx := mx.sub x1
    let dy := my.sub y1
    let distance := sqrt ((dx.mul dx).add (dy.mul dy))
    if distance.val < (JsNumber.ofRat 100).val then
      { p with
        x := x1.add (dx.mul (.ofRat (1 / 100))),
        y := y1.add (dy.mul (.ofRat (1 / 100))),
        vx := vx1, vy := vy1 }
    else
      { p with x := x1, y := y1, vx := vx1, vy := vy1 }
  | none => { p with x := x1, y := y1, vx := vx1, vy := vy1 }

/-- One animation frame on the particle pool. -/
def animate (sqrt : JsNumber → JsNumber) (canvas : Canvas) (mouse : Mouse)
    (particles : List Particle) : List Particle :=
  particles.map (updateParticle sqrt canvas mouse)

/-- The particle after `n` frames on a canvas and pointer that do not change. -/
def frames (sqrt : JsNumber → JsNumber) (canvas : Canvas) (mouse : Mouse) :
    Nat → Particle → Particle
  | 0, p => p
  | n + 1, p => frames sqrt canvas mouse n (updateParticle sqrt canvas mouse p)

/-! ## The wake-word claims in the words of the specification -/

/-- A wake phrase in any letter case: a character sequence that reads
`hey aura` or `aura` once lower-cased. -/
def IsWakePhrase (m : List Char) : Prop :=
  m.map Char.toLower = "hey aura".data ∨ m.map Char.toLower = "aura".data

/-- Specification side of the extraction: `Stripped t r` says that `r` is `t`
with every occurrence of a wake phrase removed, reading `t` from the left: an
occurrence is cut out whole, a character at which no wake phrase starts is
kept. -/
inductive Stripped : List Char → List Char → Prop where
  | done : Stripped [] []
  | cut (m rest r : List Char) :
    IsWakePhrase m → Stripped rest r → Stripped (m ++ rest) r
  | keep (c : Char) (rest r : List Char) :
    (∀ m, IsWakePhrase m → ¬ m <+: c :: rest) → Stripped rest r →
    Stripped (c :: rest) (c :: r)

/-- A transcript that contains only wake phrases and white space. -/
inductive OnlyWakePhrases : List Char → Prop where
  | nil : OnlyWakePhrases []
  | space (c : Char) (rest : List Char) :
    isJsWhiteSpace c = true → OnlyWakePhrases rest → OnlyWakePhrases (c :: rest)
  | phrase (m rest : List Char) :
    IsWakePhrase m → OnlyWakePhrases rest → OnlyWakePhrases (m ++ rest)

/-! ## Example states -/

/-- A page as loaded: empty form, voice response on, both buttons enabled. -/
def examplePage : AppState where
  currentImageId := .undefined
  isListening := false
  hasRecognition := false
  sessionId := ""
  queryInput := ""
  voiceToggle := true
  modelSelect := "default"
  imageInputFiles := []
  uploadAreaHtml := "<div class=\"upload-text\">📸 Click to select an image or drag & drop</div>"
  uploadAreaDragover := false
  uploadBtn := ⟨false, "Upload Image"⟩
  analyzeBtn := ⟨false, "Analyze Image"⟩
  status := ⟨"", "status", "none"⟩
  indicatorText := listeningPrompt
  indicatorListening := false
  effects := []

/-- The application right after construction on `examplePage`: no image has
been uploaded. -/
def freshApp : AppState :=
  construct "session_k3j9x0q2a" true none examplePage

/-- The application once the file `cat.png` has been selected, its upload has
succeeded with identifier `img_1`, and the user has typed a question. -/
def readyApp : AppState :=
  { uploadImageSettled (.resolved ⟨200, "OK"⟩ (.value ⟨.string "img_1"⟩))
      (uploadImage (handleFileSelect ["cat.png"] freshApp)).1 with
    queryInput := "  what is this? " }

/-- The events that lead to `busyApp`: an upload succeeds, a question is typed
and sent with Enter, and while the request is in flight the question is
deleted. -/
def busyEvents : List Event :=
  [.fileSelected ["cat.png"], .uploadCalled,
    .uploadSettled (.resolved ⟨200, "OK"⟩ (.value ⟨.string "img_1"⟩)),
    .queryEdited "what is this?", .keypress "Enter" false, .queryEdited ""]

/-- The application while an analyze request is in flight and the query field
is empty again. -/
def busyApp : AppState :=
  { (analyzeImage { readyApp with queryInput := "what is this?" }).1 with queryInput := "" }

/-- A canvas after the window was made smaller. -/
def shrunkCanvas : Canvas :=
  ⟨.ofRat 500, .ofRat 600⟩

/-- A particle as the creation loop can draw it on a canvas 1600 wide and 600
high (`Math.random()` giving `0.5`, `0.5`, `0.75`, `0.5`, `0.5`), which is to
the right of `shrunkCanvas`. -/
def strandedParticle : Particle :=
  ⟨.ofRat 800, .ofRat 300, .ofRat (1 / 8), .ofRat 0, .ofRat 2⟩

/-! ## Properties named in the theorems -/

/-- Events of a voice session: recognition starts, a question is heard while
no image is held, the engine reports an error, and a file is selected. -/
def voiceEvents : List Event :=
  [.recognitionStarted, .recognitionResult "hey aura what is this",
    .recognitionError "no-speech", .fileSelected ["cat.png"]]

/-- The world after `voiceEvents` on the example page. -/
def voiceWorld : World :=
  (run (initialWorld "session_k3j9x0q2a" true none examplePage) voiceEvents).getD
    (initialWorld "session_k3j9x0q2a" true none examplePage)

/-- The markup contains an audio element: the opening `<audio` of one occurs
in it. -/
def ContainsAudioElement (html : String) : Prop :=
  "<audio".data <:+: html.data

/-- The markup contains the inline audio player with `src` as its source: an
`audio` element of class `audio-player` with controls, whose `source` child
has that address and the type `audio/mpeg`. -/
def ContainsAudioPlayer (html src : String) : Prop :=
  ("<audio controls class=\"audio-player\"><source src=\"" ++ src ++
    "\" type=\"audio/mpeg\">").data <:+: html.data

/-- Whether a `<` is directly followed by an `a` somewhere in the text;
`afterLt` says that the character before the text is a `<`. -/
def hasLtA : Bool → List Char → Bool
  | _, [] => false
  | afterLt, c :: t => (afterLt && c == 'a') || hasLtA (c == '<') t

/-- Whether the text ends in `<`; for the empty text, what `afterLt` says. -/
def endsInLt : Bool → List Char → Bool
  | afterLt, [] => afterLt
  | _, c :: t => endsInLt (c == '<') t

/-- A response whose description carries the markup of an audio player. -/
def markupInDescription : AnalyzeData :=
  ⟨.string ("A web page with a player: <audio controls class=\"audio-player\">" ++
      "<source src=\"/audio/a1.mp3\" type=\"audio/mpeg\"></audio>"),
    .string "/audio/a1.mp3", .undefined⟩

/-- The invariant: a disabled analyze button has an analyze request in flight. -/
def ButtonInvariant (w : World) : Prop :=
  w.app.analyzeBtn.disabled = true → w.analyses ≠ []

/-! ## Rounding to double precision -/

theorem roundHalfEven_intCast (n : ℤ) : roundHalfEven (n : ℚ) = n := by
  simp [roundHalfEven]

theorem floor_le_roundHalfEven (q : ℚ) : ⌊q⌋ ≤ roundHalfEven q := by
  unfold roundHalfEven
  split_ifs <;> omega

theorem roundHalfEven_le_ceil (q : ℚ) : roundHalfEven q ≤ ⌈q⌉ := by
  unfold roundHalfEven
  have h1 : ⌊q⌋ ≤ ⌈q⌉ := Int.floor_le_ceil q
  split_ifs with h2 h3
  · exact h1
  · have : (⌊q⌋ : ℚ) < q := by linarith
    have : ⌊q⌋ < ⌈q⌉ := Int.lt_ceil.mpr this
    omega
  · exact h1
  · have hq : q - ⌊q⌋ = 1 / 2 := le_antisymm (not_lt.mp h3) (not_lt.mp h2)
    have : (⌊q⌋ : ℚ) < q := by linarith
    have : ⌊q⌋ < ⌈q⌉ := Int.lt_ceil.mpr this
    omega

theorem roundHalfEven_neg (q : ℚ) : roundHalfEven (-q) = -roundHalfEven q := by
  by_cases hint : (⌊q⌋ : ℚ) = q
  · rw [← hint, ← Int.cast_neg, roundHalfEven_intCast, roundHalfEven_intCast]
  · have hlt : (⌊q⌋ : ℚ) < q := lt_of_le_of_ne (Int.floor_le q) hint
    have hfl : ⌊-q⌋ = -⌊q⌋ - 1 := by
      rw [Int.floor_eq_iff]
      have := Int.lt_floor_add_one q
      push_cast
      constructor <;> linarith
    unfold roundHalfEven
    rw [hfl]
    push_cast
    have hup := Int.lt_floor_add_one q
    by_cases h1 : q - ⌊q⌋ < 1 / 2
    · have a1 : ¬ (-q - (-(⌊q⌋ : ℚ) - 1) < 1 / 2) := by linarith
      have a2 : 1 / 2 < -q - (-(⌊q⌋ : ℚ) - 1) := by linarith
      simp only [h1, a1, a2, if_true, if_false]
      omega
    · by_cases h2 : 1 / 2 < q - ⌊q⌋
      · have a1 : -q - (-(⌊q⌋ : ℚ) - 1) < 1 / 2 := by linarith
        simp only [h1, h2, a1, if_true, if_false]
        omega
      · have a1 : ¬ (-q - (-(⌊q⌋ : ℚ) - 1) < 1 / 2) := by linarith
        have a2 : ¬ (1 / 2 < -q - (-(⌊q⌋ : ℚ) - 1)) := by linarith
        simp only [h1, h2, a1, a2, if_false]
        split_ifs <;> omega

theorem exponentOf_neg (q : ℚ) : exponentOf (-q) = exponentOf q := by
  simp [exponentOf]

theorem roundDouble_neg (q : ℚ) : roundDouble (-q) = -roundDouble q := by
  unfold roundDouble ulpOf
  rw [exponentOf_neg, neg_div, roundHalfEven_neg]
  push_cast
  ring


theorem log_two_eq {r : ℚ} (hr : 0 < r) {e : ℤ} (h1 : (2 : ℚ) ^ e ≤ r)
    (h2 : r < (2 : ℚ) ^ (e + 1)) : Int.log 2 r = e := by
  have a : e ≤ Int.log 2 r :=
    (Int.zpow_le_iff_le_log (b := 2) (by norm_num) hr).mp (by exact_mod_cast h1)
  have b : Int.log 2 r < e + 1 :=
    (Int.lt_zpow_iff_log_lt (b := 2) (by norm_num) hr).mp (by exact_mod_cast h2)
  omega

theorem two_zpow_split (e : ℤ) : (2 : ℚ) ^ e = 2 ^ (52 : ℕ) * 2 ^ (e - 52) := by
  rw [← zpow_natCast, ← zpow_add₀ (by norm_num : (2 : ℚ) ≠ 0)]
  congr 1
  omega

theorem two_zpow_succ_split (e : ℤ) : (2 : ℚ) ^ (e + 1) = 2 ^ (53 : ℕ) * 2 ^ (e - 52) := by
  rw [← zpow_natCast, ← zpow_add₀ (by norm_num : (2 : ℚ) ≠ 0)]
  congr 1
  omega

theorem exponentOf_normal (n e : ℤ) (h1 : 2 ^ 52 ≤ |n|) (h2 : |n| < 2 ^ 53)
    (he : -1022 ≤ e) : exponentOf ((n : ℚ) * 2 ^ (e - 52)) = e := by
  have hu : (0 : ℚ) < 2 ^ (e - 52) := zpow_pos (by norm_num) _
  have habs : |(n : ℚ) * 2 ^ (e - 52)| = (|n| : ℤ) * 2 ^ (e - 52) := by
    rw [abs_mul, abs_of_pos hu, Int.cast_abs]
  have h1' : ((2 : ℚ) ^ (52 : ℕ)) ≤ ((|n| : ℤ) : ℚ) := by exact_mod_cast h1
  have h2' : (((|n| : ℤ) : ℚ)) < (2 : ℚ) ^ (53 : ℕ) := by exact_mod_cast h2
  have hpos : (0 : ℚ) < (|n| : ℤ) * 2 ^ (e - 52) := by
    apply mul_pos _ hu
    have : (0 : ℚ) < 2 ^ (52 : ℕ) := by positivity
    linarith
  have hlog : Int.log 2 (((|n| : ℤ) : ℚ) * 2 ^ (e - 52)) = e := by
    apply log_two_eq hpos
    · rw [two_zpow_split e]
      exact mul_le_mul_of_nonneg_right h1' hu.le
    · rw [two_zpow_succ_split e]
      exact mul_lt_mul_of_pos_right h2' hu
  unfold exponentOf
  rw [habs, hlog]
  exact max_eq_left he

theorem roundDouble_normal (n e : ℤ) (h1 : 2 ^ 52 ≤ |n|) (h2 : |n| < 2 ^ 53)
    (he : -1022 ≤ e) :
    roundDouble ((n : ℚ) * 2 ^ (e - 52)) = (n : ℚ) * 2 ^ (e - 52) := by
  have hu : (2 : ℚ) ^ (e - 52) ≠ 0 := (zpow_pos (by norm_num) _).ne'
  unfold roundDouble ulpOf
  rw [exponentOf_normal n e h1 h2 he, mul_div_assoc, div_self hu, mul_one,
    roundHalfEven_intCast]

theorem roundDouble_zero : roundDouble 0 = 0 := by
  unfold roundDouble
  rw [zero_div]
  have : roundHalfEven 0 = 0 := by simpa using roundHalfEven_intCast 0
  rw [this]
  simp

theorem roundDouble_subnormal (n : ℤ) (h : |n| < 2 ^ 52) :
    roundDouble ((n : ℚ) * 2 ^ (-1022 - 52 : ℤ)) = (n : ℚ) * 2 ^ (-1022 - 52 : ℤ) := by
  by_cases hn : n = 0
  · subst hn
    simp [roundDouble_zero]
  have hu : (0 : ℚ) < 2 ^ (-1022 - 52 : ℤ) := zpow_pos (by norm_num) _
  have habs : |(n : ℚ) * 2 ^ (-1022 - 52 : ℤ)| = (|n| : ℤ) * 2 ^ (-1022 - 52 : ℤ) := by
    rw [abs_mul, abs_of_pos hu, Int.cast_abs]
  have hnpos : (0 : ℚ) < ((|n| : ℤ) : ℚ) := by
    have : 0 < |n| := abs_pos.mpr hn
    exact_mod_cast this
  have h' : (((|n| : ℤ) : ℚ)) < (2 : ℚ) ^ (52 : ℕ) := by exact_mod_cast h
  have hpos : (0 : ℚ) < (|n| : ℤ) * 2 ^ (-1022 - 52 : ℤ) := mul_pos hnpos hu
  have hlog : Int.log 2 (((|n| : ℤ) : ℚ) * 2 ^ (-1022 - 52 : ℤ)) < -1022 := by
    apply (Int.lt_zpow_iff_log_lt (b := 2) (by norm_num) hpos).mp
    have : ((2 : ℕ) : ℚ) ^ (-1022 : ℤ) = 2 ^ (52 : ℕ) * 2 ^ (-1022 - 52 : ℤ) := by
      push_cast
      exact two_zpow_split (-1022)
    rw [this]
    exact mul_lt_mul_of_pos_right h' hu
  have hexp : exponentOf ((n : ℚ) * 2 ^ (-1022 - 52 : ℤ)) = -1022 := by
    unfold exponentOf
    rw [habs]
    exact max_eq_right hlog.le
  unfold roundDouble ulpOf
  rw [hexp, mul_div_assoc, div_self hu.ne', mul_one, roundHalfEven_intCast]

theorem roundDouble_idem (q : ℚ) : roundDouble (roundDouble q) = roundDouble q := by
  have he : -1022 ≤ exponentOf q := le_max_right _ _
  have hu : (0 : ℚ) < 2 ^ (exponentOf q - 52) := zpow_pos (by norm_num) _
  have hqlt : |q| < 2 ^ (exponentOf q + 1) := by
    have h1 : |q| < ((2 : ℕ) : ℚ) ^ (Int.log 2 |q| + 1) :=
      Int.lt_zpow_succ_log_self (by norm_num) _
    have h2 : ((2 : ℕ) : ℚ) ^ (Int.log 2 |q| + 1) ≤ (2 : ℚ) ^ (exponentOf q + 1) := by
      push_cast
      apply zpow_le_zpow_right₀ (by norm_num)
      have : Int.log 2 |q| ≤ exponentOf q := le_max_left _ _
      omega
    exact lt_of_lt_of_le h1 h2
  have hbound : |q / 2 ^ (exponentOf q - 52)| < 2 ^ (53 : ℕ) := by
    rw [abs_div, abs_of_pos hu, div_lt_iff₀ hu, ← two_zpow_succ_split]
    exact hqlt
  have hnle : |roundHalfEven (q / 2 ^ (exponentOf q - 52))| ≤ 2 ^ 53 := by
    rw [abs_le]
    have hb := abs_lt.mp hbound
    constructor
    · have : (-(2 : ℤ) ^ 53 : ℤ) ≤ ⌊q / 2 ^ (exponentOf q - 52)⌋ := by
        rw [Int.le_floor]
        push_cast
        linarith [hb.1]
      exact le_trans this (floor_le_roundHalfEven _)
    · have : ⌈q / 2 ^ (exponentOf q - 52)⌉ ≤ (2 : ℤ) ^ 53 := by
        rw [Int.ceil_le]
        push_cast
        linarith [hb.2]
      exact le_trans (roundHalfEven_le_ceil _) this
  show roundDouble (roundHalfEven (q / ulpOf q) * ulpOf q) = roundHalfEven (q / ulpOf q) * ulpOf q
  unfold ulpOf
  set n := roundHalfEven (q / 2 ^ (exponentOf q - 52)) with hn
  by_cases hbig : |n| = 2 ^ 53
  · have hform : (n : ℚ) * 2 ^ (exponentOf q - 52)
        = ((n / 2 : ℤ) : ℚ) * 2 ^ (exponentOf q + 1 - 52) := by
      have h2 : (2 : ℤ) ∣ n := by
        rcases abs_eq (by norm_num : (0 : ℤ) ≤ 2 ^ 53) |>.mp hbig with h | h <;>
          rw [h] <;> norm_num
      obtain ⟨k, hk⟩ := h2
      have : n / 2 = k := by rw [hk]; simp
      rw [this, hk]
      have : (2 : ℚ) ^ (exponentOf q + 1 - 52) = 2 * 2 ^ (exponentOf q - 52) := by
        have : exponentOf q + 1 - 52 = (exponentOf q - 52) + 1 := by ring
        rw [this, zpow_add_one₀ (by norm_num : (2 : ℚ) ≠ 0)]
        ring
      rw [this]
      push_cast
      ring
    rw [hform]
    apply roundDouble_normal
    · rcases abs_eq (by norm_num : (0 : ℤ) ≤ 2 ^ 53) |>.mp hbig with h | h <;>
        rw [h] <;> norm_num
    · rcases abs_eq (by norm_num : (0 : ℤ) ≤ 2 ^ 53) |>.mp hbig with h | h <;>
        rw [h] <;> norm_num
    · omega
  · have hlt : |n| < 2 ^ 53 := lt_of_le_of_ne hnle hbig
    by_cases hnorm : 2 ^ 52 ≤ |n|
    · exact roundDouble_normal n _ hnorm hlt he
    · have hsmall : |n| < 2 ^ 52 := not_le.mp hnorm
      by_cases hn0 : n = 0
      · rw [hn0]
        simp [roundDouble_zero]
      · have hexp : exponentOf q = -1022 := by
          by_contra hne
          have hgt : -1022 < exponentOf q := lt_of_le_of_ne he (Ne.symm hne)
          have hlogeq : exponentOf q = Int.log 2 |q| := by
            unfold exponentOf at hgt ⊢
            rcases max_cases (Int.log 2 |q|) (-1022) with ⟨h, _⟩ | ⟨h, _⟩
            · exact h
            · rw [h] at hgt
              exact absurd hgt (lt_irrefl _)
          have hq0 : q ≠ 0 := by
            intro h0
            apply hn0
            rw [hn, h0, zero_div]
            simpa using roundHalfEven_intCast 0
          have hqpos : 0 < |q| := abs_pos.mpr hq0
          have hge : (2 : ℚ) ^ (exponentOf q) ≤ |q| := by
            rw [hlogeq]
            have := Int.zpow_log_le_self (b := 2) (by norm_num) hqpos
            exact_mod_cast this
          have hge' : (2 : ℚ) ^ (52 : ℕ) ≤ |q / 2 ^ (exponentOf q - 52)| := by
            rw [abs_div, abs_of_pos hu, le_div_iff₀ hu, ← two_zpow_split]
            exact hge
          have : (2 : ℤ) ^ 52 ≤ |n| := by
            rcases le_abs.mp hge' with h | h
            · have : (2 : ℤ) ^ 52 ≤ ⌊q / 2 ^ (exponentOf q - 52)⌋ := by
                rw [Int.le_floor]
                push_cast
                exact h
              exact le_trans (le_trans this (floor_le_roundHalfEven _)) (le_abs_self _)
            · have : ⌈q / 2 ^ (exponentOf q - 52)⌉ ≤ -(2 : ℤ) ^ 52 := by
                rw [Int.ceil_le]
                push_cast
                linarith
              have h3 : n ≤ -(2 : ℤ) ^ 52 := le_trans (roundHalfEven_le_ceil _) this
              have h4 : -n ≤ |n| := neg_le_abs n
              omega
          omega
        rw [hexp]
        exact roundDouble_subnormal n hsmall

theorem roundHalfEven_of_near (n : ℤ) (q : ℚ) (h1 : (n : ℚ) ≤ q) (h2 : q - n < 1 / 2) :
    roundHalfEven q = n := by
  have hf : ⌊q⌋ = n := by
    rw [Int.floor_eq_iff]
    constructor
    · exact h1
    · linarith
  unfold roundHalfEven
  rw [hf, if_pos h2]

theorem roundDouble_eval (q : ℚ) (e n : ℤ) (he : -1022 ≤ e) (h1 : (2 : ℚ) ^ e ≤ |q|)
    (h2 : |q| < (2 : ℚ) ^ (e + 1)) (hr : roundHalfEven (q / 2 ^ (e - 52)) = n) :
    roundDouble q = (n : ℚ) * 2 ^ (e - 52) := by
  have hpos : 0 < |q| := lt_of_lt_of_le (zpow_pos (by norm_num) _) h1
  have hexp : exponentOf q = e := by
    unfold exponentOf
    rw [log_two_eq hpos h1 h2]
    exact max_eq_left he
  unfold roundDouble ulpOf
  rw [hexp, hr]

theorem roundDouble_one : roundDouble 1 = 1 := by
  have := roundDouble_normal 4503599627370496 0 (by norm_num) (by norm_num) (by norm_num)
  norm_num at this
  exact this

theorem JsNumber.round_val (a : JsNumber) : roundDouble a.val = a.val := by
  obtain ⟨r, hr⟩ := a.isDouble
  rw [hr, roundDouble_idem]

theorem JsNumber.ext_val {a b : JsNumber} (h : a.val = b.val) : a = b := by
  cases a
  cases b
  simp only at h
  subst h
  rfl

theorem JsNumber.ofRat_zero_val : (JsNumber.ofRat 0).val = 0 :=
  roundDouble_zero

theorem JsNumber.mul_neg_one_val (a : JsNumber) : (a.mul (.ofRat (-1))).val = -a.val := by
  show roundDouble (a.val * roundDouble (-1)) = -a.val
  rw [roundDouble_neg 1, roundDouble_one, mul_neg, mul_one, roundDouble_neg, a.round_val]

/-! ## Characters and the wake-phrase pattern -/

theorem toNat_ofNat_small (n : Nat) (h : n < 0xd800) : (Char.ofNat n).toNat = n := by
  unfold Char.ofNat
  have hv : n.isValidChar := Or.inl h
  simp [hv, Char.ofNatAux, Char.toNat]
  unfold UInt32.toNat
  simp

theorem toLower_toUpper (c : Char) : c.toUpper.toLower = c.toLower := by
  by_cases h : c.toNat ≥ 97 ∧ c.toNat ≤ 122
  · have h1 : c.toUpper = Char.ofNat (c.toNat - 32) := by simp [Char.toUpper, h]
    have h2 : (Char.ofNat (c.toNat - 32)).toNat = c.toNat - 32 :=
      toNat_ofNat_small _ (by omega)
    have h3 : c.toLower = c := by
      have : ¬ (c.toNat ≥ 65 ∧ c.toNat ≤ 90) := by omega
      simp [Char.toLower, this]
    rw [h3, h1]
    have h4 : (Char.ofNat (c.toNat - 32)).toNat ≥ 65 ∧ (Char.ofNat (c.toNat - 32)).toNat ≤ 90 := by
      rw [h2]; omega
    unfold Char.toLower
    simp only [h4, and_self, if_true]
    rw [h2]
    have : c.toNat - 32 + 32 = c.toNat := by omega
    rw [this, Char.ofNat_toNat]
  · have h1 : c.toUpper = c := by simp [Char.toUpper, h]
    rw [h1]

theorem toUpper_toLower (c : Char) : c.toLower.toUpper = c.toUpper := by
  by_cases h : c.toNat ≥ 65 ∧ c.toNat ≤ 90
  · have h1 : c.toLower = Char.ofNat (c.toNat + 32) := by simp [Char.toLower, h]
    have h2 : (Char.ofNat (c.toNat + 32)).toNat = c.toNat + 32 :=
      toNat_ofNat_small _ (by omega)
    have h3 : c.toUpper = c := by
      have : ¬ (c.toNat ≥ 97 ∧ c.toNat ≤ 122) := by omega
      simp [Char.toUpper, this]
    rw [h3, h1]
    have h4 : (Char.ofNat (c.toNat + 32)).toNat ≥ 97 ∧ (Char.ofNat (c.toNat + 32)).toNat ≤ 122 := by
      rw [h2]; omega
    unfold Char.toUpper
    simp only [h4, and_self, if_true]
    rw [h2]
    have : c.toNat + 32 - 32 = c.toNat := by omega
    rw [this, Char.ofNat_toNat]
  · have h1 : c.toLower = c := by simp [Char.toLower, h]
    rw [h1]

theorem toUpper_eq_iff (c p : Char) : c.toUpper = p.toUpper ↔ c.toLower = p.toLower := by
  constructor
  · intro h
    rw [← toLower_toUpper c, h, toLower_toUpper]
  · intro h
    rw [← toUpper_toLower c, h, toUpper_toLower]

theorem matchesAt_iff (p s : List Char) :
    matchesAt p s = true ↔ p.map Char.toLower <+: s.map Char.toLower := by
  induction p generalizing s with
  | nil => simp [matchesAt]
  | cons a p ih =>
    cases s with
    | nil => simp [matchesAt]
    | cons c cs =>
      simp only [matchesAt, canonicalize, Bool.and_eq_true, beq_iff_eq, List.map_cons,
        List.cons_prefix_cons, ih cs, toUpper_eq_iff]
      constructor
      · rintro ⟨h1, h2⟩
        exact ⟨h1.symm, h2⟩
      · rintro ⟨h1, h2⟩
        exact ⟨h1.symm, h2⟩

theorem heyAura_lower : heyAura.map Char.toLower = "hey aura".data := by decide

theorem aura_lower : aura.map Char.toLower = "aura".data := by decide

theorem matchesAt_of_map_eq (p m rest : List Char)
    (h : m.map Char.toLower = p.map Char.toLower) : matchesAt p (m ++ rest) = true := by
  rw [matchesAt_iff, List.map_append, h]
  exact List.prefix_append _ _

theorem map_take_of_matchesAt (p s : List Char) (h : matchesAt p s = true) :
    (s.take p.length).map Char.toLower = p.map Char.toLower := by
  rw [matchesAt_iff] at h
  obtain ⟨t, ht⟩ := h
  rw [List.map_take, ← ht]
  have : p.length = (p.map Char.toLower).length := by simp
  rw [this, List.take_left]

theorem replaceFrom_eq_drop (k : Nat) (l : List Char) :
    replaceFrom k l = replaceFrom 0 (l.drop k) := by
  induction l generalizing k with
  | nil => cases k <;> simp [replaceFrom]
  | cons c cs ih =>
    cases k with
    | zero => simp
    | succ k => simp [replaceFrom, ih k]

theorem replaceFrom_heyAura (l : List Char) (h : matchesAt heyAura l = true) :
    replaceFrom 0 l = replaceFrom 0 (l.drop 8) := by
  cases l with
  | nil => simp [matchesAt, heyAura] at h
  | cons c cs =>
    simp only [replaceFrom, h, if_true]
    rw [replaceFrom_eq_drop 7 cs]
    simp

theorem replaceFrom_aura (l : List Char) (h0 : matchesAt heyAura l = false)
    (h : matchesAt aura l = true) :
    replaceFrom 0 l = replaceFrom 0 (l.drop 4) := by
  cases l with
  | nil => simp [matchesAt, aura] at h
  | cons c cs =>
    simp only [replaceFrom, h0, h, if_true]
    rw [replaceFrom_eq_drop 3 cs]
    simp

theorem replaceFrom_keep (c : Char) (cs : List Char)
    (h0 : matchesAt heyAura (c :: cs) = false) (h : matchesAt aura (c :: cs) = false) :
    replaceFrom 0 (c :: cs) = c :: replaceFrom 0 cs := by
  simp [replaceFrom, h0, h]

theorem not_heyAura_of_aura (m rest : List Char)
    (h : m.map Char.toLower = "aura".data) : matchesAt heyAura (m ++ rest) = false := by
  rw [Bool.eq_false_iff]
  intro hm
  rw [matchesAt_iff, List.map_append, h, heyAura_lower] at hm
  simp [List.cons_prefix_cons] at hm

theorem stripped_sound {t r : List Char} (h : Stripped t r) : r = replaceFrom 0 t := by
  induction h with
  | done => simp [replaceFrom]
  | cut m rest r hm _ ih =>
    rcases hm with hm | hm
    · have hlen : m.length = 8 := by
        have := congrArg List.length hm
        simpa using this
      rw [replaceFrom_heyAura _ (matchesAt_of_map_eq heyAura m rest (by rw [hm, heyAura_lower])),
        List.drop_left' hlen]
      exact ih
    · have hlen : m.length = 4 := by
        have := congrArg List.length hm
        simpa using this
      rw [replaceFrom_aura _ (not_heyAura_of_aura m rest hm)
          (matchesAt_of_map_eq aura m rest (by rw [hm, aura_lower])),
        List.drop_left' hlen]
      exact ih
  | keep c rest r hk _ ih =>
    have h0 : matchesAt heyAura (c :: rest) = false := by
      rw [Bool.eq_false_iff]
      intro hm
      exact hk _ (Or.inl (by rw [map_take_of_matchesAt _ _ hm, heyAura_lower]))
        (List.take_prefix _ _)
    have h1 : matchesAt aura (c :: rest) = false := by
      rw [Bool.eq_false_iff]
      intro hm
      exact hk _ (Or.inr (by rw [map_take_of_matchesAt _ _ hm, aura_lower]))
        (List.take_prefix _ _)
    rw [replaceFrom_keep c rest h0 h1, ih]

theorem stripped_replaceFrom_aux (n : Nat) :
    ∀ t : List Char, t.length ≤ n → Stripped t (replaceFrom 0 t) := by
  induction n with
  | zero =>
    intro t ht
    have : t = [] := List.length_eq_zero.mp (Nat.le_zero.mp ht)
    subst this
    simpa [replaceFrom] using Stripped.done
  | succ n ih =>
    intro t ht
    cases t with
    | nil => simpa [replaceFrom] using Stripped.done
    | cons c cs =>
      have hcs : cs.length ≤ n := by simpa using ht
      by_cases h0 : matchesAt heyAura (c :: cs) = true
      · rw [replaceFrom_heyAura _ h0]
        have hcut := Stripped.cut ((c :: cs).take 8) ((c :: cs).drop 8) _
          (Or.inl (by
            have := map_take_of_matchesAt _ _ h0
            rw [heyAura_lower] at this
            exact this))
          (ih ((c :: cs).drop 8) (by simp; omega))
        rwa [List.take_append_drop] at hcut
      · simp only [Bool.not_eq_true] at h0
        by_cases h1 : matchesAt aura (c :: cs) = true
        · rw [replaceFrom_aura _ h0 h1]
          have hcut := Stripped.cut ((c :: cs).take 4) ((c :: cs).drop 4) _
            (Or.inr (by
              have := map_take_of_matchesAt _ _ h1
              rw [aura_lower] at this
              exact this))
            (ih ((c :: cs).drop 4) (by simp; omega))
          rwa [List.take_append_drop] at hcut
        · simp only [Bool.not_eq_true] at h1
          rw [replaceFrom_keep c cs h0 h1]
          refine Stripped.keep c cs _ ?_ (ih cs hcs)
          intro m hm hpre
          rcases hm with hm | hm
          · have : matchesAt heyAura (c :: cs) = true := by
              rw [matchesAt_iff, heyAura_lower, ← hm]
              exact hpre.map _
            rw [h0] at this
            exact Bool.false_ne_true this
          · have : matchesAt aura (c :: cs) = true := by
              rw [matchesAt_iff, aura_lower, ← hm]
              exact hpre.map _
            rw [h1] at this
            exact Bool.false_ne_true this

theorem stripped_replaceFrom (t : List Char) : Stripped t (replaceFrom 0 t) :=
  stripped_replaceFrom_aux t.length t (Nat.le_refl _)

theorem replaceFrom_of_no_aura (l : List Char)
    (h : ¬ "aura".data <:+: l.map Char.toLower) : replaceFrom 0 l = l := by
  induction l with
  | nil => simp [replaceFrom]
  | cons c cs ih =>
    have h0 : matchesAt heyAura (c :: cs) = false := by
      rw [Bool.eq_false_iff]
      intro hm
      rw [matchesAt_iff, heyAura_lower] at hm
      have hin : "aura".data <:+: "hey aura".data := ⟨"hey ".data, [], rfl⟩
      exact h (hin.trans hm.isInfix)
    have h1 : matchesAt aura (c :: cs) = false := by
      rw [Bool.eq_false_iff]
      intro hm
      rw [matchesAt_iff, aura_lower] at hm
      exact h hm.isInfix
    rw [replaceFrom_keep c cs h0 h1, ih]
    intro hin
    apply h
    rw [List.map_cons]
    exact hin.trans (List.suffix_cons _ _).isInfix

theorem toUpper_of_whiteSpace (c : Char) (h : isJsWhiteSpace c = true) : c.toUpper = c := by
  have hn : ¬ (c.toNat ≥ 97 ∧ c.toNat ≤ 122) := by
    simp only [isJsWhiteSpace, Bool.or_eq_true, beq_iff_eq, Bool.and_eq_true,
      decide_eq_true_eq] at h
    omega
  simp [Char.toUpper, hn]

theorem no_match_at_whiteSpace (c : Char) (cs : List Char) (h : isJsWhiteSpace c = true) :
    matchesAt heyAura (c :: cs) = false ∧ matchesAt aura (c :: cs) = false := by
  have hu := toUpper_of_whiteSpace c h
  constructor
  · rw [Bool.eq_false_iff]
    intro hm
    simp only [matchesAt, heyAura, canonicalize, Bool.and_eq_true, beq_iff_eq] at hm
    rw [hu] at hm
    have hc : c = 'H' := hm.1
    rw [hc] at h
    exact absurd h (by decide)
  · rw [Bool.eq_false_iff]
    intro hm
    simp only [matchesAt, aura, canonicalize, Bool.and_eq_true, beq_iff_eq] at hm
    rw [hu] at hm
    have hc : c = 'A' := hm.1
    rw [hc] at h
    exact absurd h (by decide)

theorem trimChars_of_whiteSpace (l : List Char) (h : ∀ c ∈ l, isJsWhiteSpace c = true) :
    trimChars l = [] := by
  have : l.dropWhile isJsWhiteSpace = [] := by
    rw [List.dropWhile_eq_nil_iff]
    exact h
  simp [trimChars, this]

theorem trimChars_cons_whiteSpace (c : Char) (l : List Char) (h : isJsWhiteSpace c = true) :
    trimChars (c :: l) = trimChars l := by
  simp [trimChars, List.dropWhile_cons, h]

theorem replaceFrom_whiteSpace {l : List Char} (h : OnlyWakePhrases l) :
    ∀ c ∈ replaceFrom 0 l, isJsWhiteSpace c = true := by
  induction h with
  | nil => simp [replaceFrom]
  | space c rest hc _ ih =>
    obtain ⟨h0, h1⟩ := no_match_at_whiteSpace c rest hc
    rw [replaceFrom_keep c rest h0 h1]
    intro d hd
    rcases List.mem_cons.mp hd with hd | hd
    · rw [hd]; exact hc
    · exact ih d hd
  | phrase m rest hm _ ih =>
    rcases hm with hm | hm
    · have hlen : m.length = 8 := by
        have := congrArg List.length hm
        simpa using this
      rw [replaceFrom_heyAura _ (matchesAt_of_map_eq heyAura m rest (by rw [hm, heyAura_lower])),
        List.drop_left' hlen]
      exact ih
    · have hlen : m.length = 4 := by
        have := congrArg List.length hm
        simpa using this
      rw [replaceFrom_aura _ (not_heyAura_of_aura m rest hm)
          (matchesAt_of_map_eq aura m rest (by rw [hm, aura_lower])),
        List.drop_left' hlen]
      exact ih

/-! ## What `showStatus` changes -/

theorem showStatus_error_effects (m : String) (s : AppState) :
    (showStatus m "error" s).effects = s.effects := by
  simp [showStatus]

theorem showStatus_status (m t : String) (s : AppState) :
    (showStatus m t s).status = ⟨m, "status " ++ t, "block"⟩ := by
  unfold showStatus
  split <;> rfl

theorem showStatus_isListening (m t : String) (s : AppState) :
    (showStatus m t s).isListening = s.isListening := by
  unfold showStatus
  split <;> rfl

theorem showStatus_analyzeBtn (m t : String) (s : AppState) :
    (showStatus m t s).analyzeBtn = s.analyzeBtn := by
  unfold showStatus
  split <;> rfl

theorem showStatus_currentImageId (m t : String) (s : AppState) :
    (showStatus m t s).currentImageId = s.currentImageId := by
  unfold showStatus
  split <;> rfl

theorem showStatus_uploadBtn (m t : String) (s : AppState) :
    (showStatus m t s).uploadBtn = s.uploadBtn := by
  unfold showStatus
  split <;> rfl

/-! ## No handler writes `isListening` -/

theorem analyzeImage_isListening (s : AppState) :
    (analyzeImage s).1.isListening = s.isListening := by
  unfold analyzeImage
  split
  · exact showStatus_isListening _ _ _
  · dsimp only
    split
    · exact showStatus_isListening _ _ _
    · rfl

theorem analyzeImageSettled_isListening (p : AnalyzePending) (o : FetchOutcome AnalyzeData)
    (s : AppState) : (analyzeImageSettled p o s).isListening = s.isListening := by
  unfold analyzeImageSettled
  simp only [updateWakeWordIndicator]
  split
  · exact showStatus_isListening _ _ _
  · split
    · exact showStatus_isListening _ _ _
    · split
      · exact showStatus_isListening _ _ _
      · exact showStatus_isListening _ _ _
      · exact showStatus_isListening _ _ _

theorem uploadImage_isListening (s : AppState) :
    (uploadImage s).1.isListening = s.isListening := by
  unfold uploadImage
  split
  · exact showStatus_isListening _ _ _
  · rfl

theorem uploadImageSettled_isListening (o : FetchOutcome UploadData) (s : AppState) :
    (uploadImageSettled o s).isListening = s.isListening := by
  unfold uploadImageSettled
  simp only
  split
  · exact showStatus_isListening _ _ _
  · split
    · exact showStatus_isListening _ _ _
    · split
      · exact showStatus_isListening _ _ _
      · exact showStatus_isListening _ _ _
      · simp only [emit]
        exact showStatus_isListening _ _ _

theorem handleWakeWord_isListening (t : String) (s : AppState) :
    (handleWakeWord t s).1.isListening = s.isListening := by
  unfold handleWakeWord
  simp only
  split
  · rw [analyzeImage_isListening]
    rfl
  · simp only [updateWakeWordIndicator]
    rw [showStatus_isListening]
    rfl

theorem onresult_isListening (l : String) (s : AppState) :
    (onresult l s).1.isListening = s.isListening := by
  unfold onresult
  simp only
  split
  · rw [handleWakeWord_isListening]
    rfl
  · rfl

theorem onKeypress_isListening (k : String) (b : Bool) (s : AppState) :
    (onKeypress k b s).1.isListening = s.isListening := by
  unfold onKeypress
  split
  · exact analyzeImage_isListening s
  · rfl

theorem advanceAnalysis_app (w : World) (r : AppState × Option AnalyzePending) :
    (w.advanceAnalysis r).app = r.1 := by
  unfold World.advanceAnalysis
  split <;> rfl

theorem step_isListening {w w' : World} {e : Event} (h : step w e = some w') :
    w'.app.isListening = w.app.isListening := by
  cases e with
  | recognitionStarted =>
    simp only [step] at h
    split at h
    · cases h; rfl
    · cases h
  | recognitionResult l =>
    simp only [step] at h
    split at h
    · cases h
      rw [advanceAnalysis_app, onresult_isListening]
    · cases h
  | recognitionError err =>
    simp only [step] at h
    split at h
    · cases h; rfl
    · cases h
  | recognitionEnded =>
    simp only [step] at h
    split at h
    · cases h
      simp only [World.advance, onend]
      split <;> rfl
    · cases h
  | timeout i err =>
    simp only [step] at h
    split at h
    · cases h
    · cases h; rfl
    · cases h
      simp only [World.advance, restartRecognition]
      split <;> rfl
  | keypress k b =>
    simp only [step] at h
    cases h
    rw [advanceAnalysis_app, onKeypress_isListening]
  | analyzeCalled =>
    simp only [step] at h
    cases h
    rw [advanceAnalysis_app, analyzeImage_isListening]
  | analyzeSettled i o =>
    simp only [step] at h
    split at h
    · cases h
    · cases h
      exact analyzeImageSettled_isListening _ _ _
  | uploadCalled =>
    simp only [step] at h
    cases h
    exact uploadImage_isListening _
  | uploadSettled o =>
    simp only [step] at h
    split at h
    · cases h
    · cases h
      exact uploadImageSettled_isListening _ _
  | queryEdited v => simp only [step] at h; cases h; rfl
  | voiceToggled v => simp only [step] at h; cases h; rfl
  | modelSelected v => simp only [step] at h; cases h; rfl
  | fileSelected f =>
    simp only [step] at h
    cases h
    simp only [World.advance, handleFileSelect]
    split <;> rfl
  | dragOver => simp only [step] at h; cases h; rfl
  | dragLeave => simp only [step] at h; cases h; rfl
  | dropped f =>
    simp only [step] at h
    cases h
    simp only [World.advance, handleDrop]
    split <;> rfl
  | uploadAreaClicked => simp only [step] at h; cases h; rfl

theorem run_isListening {es : List Event} {w w' : World} (h : run w es = some w') :
    w'.app.isListening = w.app.isListening := by
  induction es generalizing w with
  | nil =>
    simp only [run] at h
    cases h
    rfl
  | cons e es ih =>
    simp only [run] at h
    cases hs : step w e with
    | none => rw [hs] at h; cases h
    | some w1 =>
      rw [hs] at h
      rw [ih h, step_isListening hs]

theorem construct_isListening (sid : String) (sup : Bool) (err : Option String)
    (page : AppState) : (construct sid sup err page).isListening = false := by
  unfold construct setupVoiceRecognition
  simp only
  split
  · simp only [emit]
    rw [showStatus_isListening]
  · split
    · simp only [emit]
      rw [showStatus_isListening]
    · simp only [emit]
      rw [showStatus_isListening]

theorem reachable_isListening {page : AppState} {w : World} (h : Reachable page w) :
    w.app.isListening = false := by
  obtain ⟨sid, sup, err, es, hrun⟩ := h
  rw [run_isListening hrun]
  exact construct_isListening sid sup err page

/-! ## Only a settlement of an upload with data writes `currentImageId` -/

theorem analyzeImage_currentImageId (s : AppState) :
    (analyzeImage s).1.currentImageId = s.currentImageId := by
  unfold analyzeImage
  split
  · exact showStatus_currentImageId _ _ _
  · dsimp only
    split
    · exact showStatus_currentImageId _ _ _
    · rfl

theorem analyzeImageSettled_currentImageId (p : AnalyzePending) (o : FetchOutcome AnalyzeData)
    (s : AppState) : (analyzeImageSettled p o s).currentImageId = s.currentImageId := by
  unfold analyzeImageSettled
  simp only [updateWakeWordIndicator]
  split
  · exact showStatus_currentImageId _ _ _
  · split
    · exact showStatus_currentImageId _ _ _
    · split
      · exact showStatus_currentImageId _ _ _
      · exact showStatus_currentImageId _ _ _
      · exact showStatus_currentImageId _ _ _

theorem uploadImage_currentImageId (s : AppState) :
    (uploadImage s).1.currentImageId = s.currentImageId := by
  unfold uploadImage
  split
  · exact showStatus_currentImageId _ _ _
  · rfl

theorem uploadImageSettled_currentImageId (o : FetchOutcome UploadData) (s : AppState)
    (h : (Event.uploadSettled o).storesImage = false) :
    (uploadImageSettled o s).currentImageId = s.currentImageId := by
  unfold uploadImageSettled
  simp only
  split
  · exact showStatus_currentImageId _ _ _
  · split
    · exact showStatus_currentImageId _ _ _
    · rename_i hr
      split
      · exact showStatus_currentImageId _ _ _
      · exact showStatus_currentImageId _ _ _
      · simp [Event.storesImage] at h
        simp [h] at hr

theorem handleWakeWord_currentImageId (t : String) (s : AppState) :
    (handleWakeWord t s).1.currentImageId = s.currentImageId := by
  unfold handleWakeWord
  simp only
  split
  · rw [analyzeImage_currentImageId]
    rfl
  · simp only [updateWakeWordIndicator]
    rw [showStatus_currentImageId]
    rfl

theorem onresult_currentImageId (l : String) (s : AppState) :
    (onresult l s).1.currentImageId = s.currentImageId := by
  unfold onresult
  simp only
  split
  · rw [handleWakeWord_currentImageId]
    rfl
  · rfl

theorem onKeypress_currentImageId (k : String) (b : Bool) (s : AppState) :
    (onKeypress k b s).1.currentImageId = s.currentImageId := by
  unfold onKeypress
  split
  · exact analyzeImage_currentImageId s
  · rfl

theorem step_currentImageId {w w' : World} {e : Event} (h : step w e = some w')
    (he : e.storesImage = false) : w'.app.currentImageId = w.app.currentImageId := by
  cases e with
  | recognitionStarted =>
    simp only [step] at h
    split at h
    · cases h; rfl
    · cases h
  | recognitionResult l =>
    simp only [step] at h
    split at h
    · cases h
      rw [advanceAnalysis_app, onresult_currentImageId]
    · cases h
  | recognitionError err =>
    simp only [step] at h
    split at h
    · cases h; rfl
    · cases h
  | recognitionEnded =>
    simp only [step] at h
    split at h
    · cases h
      simp only [World.advance, onend]
      split <;> rfl
    · cases h
  | timeout i err =>
    simp only [step] at h
    split at h
    · cases h
    · cases h; rfl
    · cases h
      simp only [World.advance, restartRecognition]
      split <;> rfl
  | keypress k b =>
    simp only [step] at h
    cases h
    rw [advanceAnalysis_app, onKeypress_currentImageId]
  | analyzeCalled =>
    simp only [step] at h
    cases h
    rw [advanceAnalysis_app, analyzeImage_currentImageId]
  | analyzeSettled i o =>
    simp only [step] at h
    split at h
    · cases h
    · cases h
      exact analyzeImageSettled_currentImageId _ _ _
  | uploadCalled =>
    simp only [step] at h
    cases h
    exact uploadImage_currentImageId _
  | uploadSettled o =>
    simp only [step] at h
    split at h
    · cases h
    · cases h
      exact uploadImageSettled_currentImageId _ _ he
  | queryEdited v => simp only [step] at h; cases h; rfl
  | voiceToggled v => simp only [step] at h; cases h; rfl
  | modelSelected v => simp only [step] at h; cases h; rfl
  | fileSelected f =>
    simp only [step] at h
    cases h
    simp only [World.advance, handleFileSelect]
    split <;> rfl
  | dragOver => simp only [step] at h; cases h; rfl
  | dragLeave => simp only [step] at h; cases h; rfl
  | dropped f =>
    simp only [step] at h
    cases h
    simp only [World.advance, handleDrop]
    split <;> rfl
  | uploadAreaClicked => simp only [step] at h; cases h; rfl

theorem run_currentImageId {es : List Event} {w w' : World} (h : run w es = some w')
    (hes : ∀ e ∈ es, e.storesImage = false) :
    w'.app.currentImageId = w.app.currentImageId := by
  induction es generalizing w with
  | nil =>
    simp only [run] at h
    cases h
    rfl
  | cons e es ih =>
    simp only [run] at h
    cases hs : step w e with
    | none => rw [hs] at h; cases h
    | some w1 =>
      rw [hs] at h
      rw [ih h (fun e' he' => hes e' (List.mem_cons_of_mem _ he')),
        step_currentImageId hs (hes e (List.mem_cons_self _ _))]

theorem construct_currentImageId (sid : String) (sup : Bool) (err : Option String)
    (page : AppState) : (construct sid sup err page).currentImageId = .null := by
  unfold construct setupVoiceRecognition
  simp only
  split
  · simp only [emit]
    rw [showStatus_currentImageId]
  · split
    · simp only [emit]
      rw [showStatus_currentImageId]
    · simp only [emit]
      rw [showStatus_currentImageId]

/-! ## The analyze button is disabled only while a request is in flight -/

theorem analyzeImage_none_analyzeBtn (s : AppState) (h : (analyzeImage s).2 = none) :
    (analyzeImage s).1.analyzeBtn = s.analyzeBtn := by
  unfold analyzeImage at h ⊢
  split
  · exact showStatus_analyzeBtn _ _ _
  · rename_i h1
    dsimp only at h ⊢
    rw [if_neg h1] at h
    split
    · exact showStatus_analyzeBtn _ _ _
    · rename_i h2
      rw [if_neg h2] at h
      cases h

theorem handleWakeWord_none_analyzeBtn (t : String) (s : AppState)
    (h : (handleWakeWord t s).2 = none) :
    (handleWakeWord t s).1.analyzeBtn = s.analyzeBtn := by
  unfold handleWakeWord at h ⊢
  dsimp only at h ⊢
  split
  · rename_i h1
    rw [if_pos h1] at h
    rw [analyzeImage_none_analyzeBtn _ h]
    rfl
  · simp only [updateWakeWordIndicator]
    rw [showStatus_analyzeBtn]
    rfl

theorem onresult_none_analyzeBtn (l : String) (s : AppState)
    (h : (onresult l s).2 = none) :
    (onresult l s).1.analyzeBtn = s.analyzeBtn := by
  unfold onresult at h ⊢
  dsimp only at h ⊢
  split
  · rename_i h1
    rw [if_pos h1] at h
    rw [handleWakeWord_none_analyzeBtn _ _ h]
    rfl
  · rfl

theorem onKeypress_none_analyzeBtn (k : String) (b : Bool) (s : AppState)
    (h : (onKeypress k b s).2 = none) :
    (onKeypress k b s).1.analyzeBtn = s.analyzeBtn := by
  unfold onKeypress at h ⊢
  split
  · rename_i h1
    rw [if_pos h1] at h
    exact analyzeImage_none_analyzeBtn s h
  · rfl

theorem uploadImage_analyzeBtn (s : AppState) :
    (uploadImage s).1.analyzeBtn = s.analyzeBtn := by
  unfold uploadImage
  split
  · exact showStatus_analyzeBtn _ _ _
  · rfl

theorem uploadImageSettled_analyzeBtn (o : FetchOutcome UploadData) (s : AppState) :
    (uploadImageSettled o s).analyzeBtn = s.analyzeBtn := by
  unfold uploadImageSettled
  simp only
  split
  · exact showStatus_analyzeBtn _ _ _
  · split
    · exact showStatus_analyzeBtn _ _ _
    · split
      · exact showStatus_analyzeBtn _ _ _
      · exact showStatus_analyzeBtn _ _ _
      · simp only [emit]
        exact showStatus_analyzeBtn _ _ _

theorem analyzeImageSettled_analyzeBtn (p : AnalyzePending) (o : FetchOutcome AnalyzeData)
    (s : AppState) : (analyzeImageSettled p o s).analyzeBtn = ⟨false, "Analyze Image"⟩ := by
  simp [analyzeImageSettled, updateWakeWordIndicator]

theorem advance_invariant (w : World) (s : AppState) (h : s.analyzeBtn = w.app.analyzeBtn)
    (hw : w.app.analyzeBtn.disabled = true → w.analyses ≠ []) :
    ButtonInvariant (w.advance s) := by
  intro hd
  simp only [World.advance] at hd ⊢
  rw [h] at hd
  exact hw hd

theorem advanceAnalysis_invariant (w : World) (r : AppState × Option AnalyzePending)
    (h : r.2 = none → r.1.analyzeBtn = w.app.analyzeBtn) (hw : ButtonInvariant w) :
    ButtonInvariant (w.advanceAnalysis r) := by
  unfold World.advanceAnalysis
  cases hr : r.2 with
  | none => exact advance_invariant w r.1 (h hr) hw
  | some p =>
    intro _
    simp [World.advance]

theorem step_invariant {w w' : World} {e : Event} (h : step w e = some w')
    (hw : ButtonInvariant w) : ButtonInvariant w' := by
  cases e with
  | recognitionStarted =>
    simp only [step] at h
    split at h
    · cases h; exact advance_invariant w _ rfl hw
    · cases h
  | recognitionResult l =>
    simp only [step] at h
    split at h
    · cases h
      exact advanceAnalysis_invariant w _ (onresult_none_analyzeBtn l w.app) hw
    · cases h
  | recognitionError err =>
    simp only [step] at h
    split at h
    · cases h; exact advance_invariant w _ rfl hw
    · cases h
  | recognitionEnded =>
    simp only [step] at h
    split at h
    · cases h
      refine advance_invariant w _ ?_ hw
      simp only [onend]
      split <;> rfl
    · cases h
  | timeout i err =>
    simp only [step] at h
    split at h
    · cases h
    · cases h
      exact advance_invariant { w with timers := w.timers.eraseIdx i } _ rfl hw
    · cases h
      refine advance_invariant { w with timers := w.timers.eraseIdx i } _ ?_ hw
      simp only [restartRecognition]
      split <;> rfl
  | keypress k b =>
    simp only [step] at h
    cases h
    exact advanceAnalysis_invariant w _ (onKeypress_none_analyzeBtn k b w.app) hw
  | analyzeCalled =>
    simp only [step] at h
    cases h
    exact advanceAnalysis_invariant w _ (analyzeImage_none_analyzeBtn w.app) hw
  | analyzeSettled i o =>
    simp only [step] at h
    split at h
    · cases h
    · cases h
      intro hd
      simp only [World.advance] at hd
      rw [analyzeImageSettled_analyzeBtn] at hd
      cases hd
  | uploadCalled =>
    simp only [step] at h
    cases h
    intro hd
    exact advance_invariant w _ (uploadImage_analyzeBtn w.app) hw hd
  | uploadSettled o =>
    simp only [step] at h
    split at h
    · cases h
    · cases h
      rename_i n _
      exact advance_invariant { w with uploads := n } _
        (uploadImageSettled_analyzeBtn o w.app) hw
  | queryEdited v => simp only [step] at h; cases h; exact advance_invariant w _ rfl hw
  | voiceToggled v => simp only [step] at h; cases h; exact advance_invariant w _ rfl hw
  | modelSelected v => simp only [step] at h; cases h; exact advance_invariant w _ rfl hw
  | fileSelected f =>
    simp only [step] at h
    cases h
    refine advance_invariant w _ ?_ hw
    simp only [handleFileSelect]
    split <;> rfl
  | dragOver => simp only [step] at h; cases h; exact advance_invariant w _ rfl hw
  | dragLeave => simp only [step] at h; cases h; exact advance_invariant w _ rfl hw
  | dropped f =>
    simp only [step] at h
    cases h
    refine advance_invariant w _ ?_ hw
    simp only [handleDrop]
    split <;> rfl
  | uploadAreaClicked => simp only [step] at h; cases h; exact advance_invariant w _ rfl hw

theorem run_invariant {es : List Event} {w w' : World} (h : run w es = some w')
    (hw : ButtonInvariant w) : ButtonInvariant w' := by
  induction es generalizing w with
  | nil =>
    simp only [run] at h
    cases h
    exact hw
  | cons e es ih =>
    simp only [run] at h
    cases hs : step w e with
    | none => rw [hs] at h; cases h
    | some w1 =>
      rw [hs] at h
      exact ih h (step_invariant hs hw)

theorem construct_analyzeBtn (sid : String) (sup : Bool) (err : Option String)
    (page : AppState) : (construct sid sup err page).analyzeBtn = page.analyzeBtn := by
  unfold construct setupVoiceRecognition
  simp only
  split
  · simp only [emit]
    rw [showStatus_analyzeBtn]
  · split
    · simp only [emit]
      rw [showStatus_analyzeBtn]
    · simp only [emit]
      rw [showStatus_analyzeBtn]

theorem reachable_invariant {page : AppState} {w : World} (hp : page.analyzeBtn.disabled = false)
    (h : Reachable page w) : ButtonInvariant w := by
  obtain ⟨sid, sup, err, es, hrun⟩ := h
  refine run_invariant hrun ?_
  intro hd
  simp only [initialWorld] at hd
  rw [construct_analyzeBtn, hp] at hd
  cases hd

/-! ## Analysis: preconditions -/

theorem analyzeImage_request_iff_aux (s : AppState) :
    ((analyzeImage s).1.requests = s.requests ++
        [Effect.fetchAnalyze s.sessionId
          ⟨s.currentImageId, jsTrim s.queryInput, s.voiceToggle, s.modelSelect, s.sessionId⟩]
      ↔ (truthy s.currentImageId = true ∧ jsTrim s.queryInput ≠ "")) ∧
    ((analyzeImage s).2.isSome = true
      ↔ (truthy s.currentImageId = true ∧ jsTrim s.queryInput ≠ "")) := by
  have hne : ∀ (l : List Effect) (e : Effect), l ≠ l ++ [e] := by
    intro l e h
    have := congrArg List.length h
    simp at this
  by_cases h1 : truthy s.currentImageId = true
  · by_cases h2 : jsTrim s.queryInput = ""
    · simp [analyzeImage, h1, h2, showStatus_error_effects, AppState.requests, hne]
    · simp [analyzeImage, h1, h2, AppState.requests, emit, Effect.isRequest]
  · simp only [Bool.not_eq_true] at h1
    simp [analyzeImage, h1, showStatus_error_effects, AppState.requests, hne]

/-- C1: `analyzeImage` issues the `POST /api/analyze-image` request exactly
when `currentImageId` is truthy and the trimmed query is not empty; the request
carries the identifier, the trimmed query, the voice flag, the model and the
session.  When the identifier is missing, or the trimmed query is empty, no
call is made at all (the log of outward calls is unchanged, nothing is
pending) and the status area shows the corresponding error message.  In
particular this is so in every world reached from construction by events among
which no upload settled with data. -/
theorem analyzeImage_request_iff (s : AppState) :
    ((analyzeImage s).1.requests = s.requests ++
        [Effect.fetchAnalyze s.sessionId
          ⟨s.currentImageId, jsTrim s.queryInput, s.voiceToggle, s.modelSelect, s.sessionId⟩]
      ↔ (truthy s.currentImageId = true ∧ jsTrim s.queryInput ≠ "")) ∧
    ((analyzeImage s).2.isSome = true
      ↔ (truthy s.currentImageId = true ∧ jsTrim s.queryInput ≠ "")) ∧
    (truthy s.currentImageId = false →
      (analyzeImage s).1.effects = s.effects ∧ (analyzeImage s).2 = none ∧
      (analyzeImage s).1.status = ⟨"Please upload an image first", "status error", "block"⟩) ∧
    (truthy s.currentImageId = true → jsTrim s.queryInput = "" →
      (analyzeImage s).1.effects = s.effects ∧ (analyzeImage s).2 = none ∧
      (analyzeImage s).1.status =
        ⟨"Please enter a question about the image", "status error", "block"⟩) ∧
    (∀ (sessionId : String) (supported : Bool) (startError : Option String)
        (page : AppState) (events : List Event) (w : World),
      run (initialWorld sessionId supported startError page) events = some w →
      (∀ e ∈ events, e.storesImage = false) →
      (analyzeImage w.app).1.effects = w.app.effects ∧ (analyzeImage w.app).2 = none ∧
      (analyzeImage w.app).1.status =
        ⟨"Please upload an image first", "status error", "block"⟩) := by
  have hfresh : ∀ (sessionId : String) (supported : Bool) (startError : Option String)
      (page : AppState) (events : List Event) (w : World),
      run (initialWorld sessionId supported startError page) events = some w →
      (∀ e ∈ events, e.storesImage = false) →
      (analyzeImage w.app).1.effects = w.app.effects ∧ (analyzeImage w.app).2 = none ∧
      (analyzeImage w.app).1.status =
        ⟨"Please upload an image first", "status error", "block"⟩ := by
    intro sid sup err page es w hrun hes
    have hid : w.app.currentImageId = .null := by
      rw [run_currentImageId hrun hes]
      exact construct_currentImageId sid sup err page
    simp [analyzeImage, hid, truthy, showStatus_error_effects, showStatus_status]
  refine ⟨(analyzeImage_request_iff_aux s).1, (analyzeImage_request_iff_aux s).2, ?_, ?_,
    hfresh⟩
  · intro h1
    simp [analyzeImage, h1, showStatus_error_effects, showStatus_status]
  · intro h1 h2
    simp [analyzeImage, h1, h2, showStatus_error_effects, showStatus_status]

/-- Witness for C1 on concrete states: right after construction (no upload
yet) a typed question issues no request, and once `img_1` is held the question
is sent, trimmed. -/
theorem analyzeImage_request_iff_witness :
    ((analyzeImage { freshApp with queryInput := "what is this?" }).1.effects
        = freshApp.effects ∧
      (analyzeImage { freshApp with queryInput := "what is this?" }).2 = none ∧
      (analyzeImage { freshApp with queryInput := "what is this?" }).1.status
        = ⟨"Please upload an image first", "status error", "block"⟩) ∧
    (analyzeImage readyApp).1.requests = readyApp.requests ++
      [Effect.fetchAnalyze "session_k3j9x0q2a"
        ⟨.string "img_1", "what is this?", true, "default", "session_k3j9x0q2a"⟩] :=
  ⟨(analyzeImage_request_iff { freshApp with queryInput := "what is this?" }).2.2.1
      (by decide),
    (analyzeImage_request_iff readyApp).1.2 (by decide)⟩

/-! ## Wake word: the extracted query -/

/-- C2: the query `handleWakeWord` extracts is the transcript with every
occurrence of `hey aura` and `aura` (in any letter case) removed, trimmed:
the code's replacement produces a result that the specification's relation
`Stripped` accepts, and whatever that relation accepts gives the same query.
For a non-empty trimmed `q` that does not contain `aura` in any letter case
the transcript `hey aura ` followed by `q` yields exactly `q`; for a `q`
without capital letters, which is what `onresult` passes on after
`toLowerCase()`, not containing `aura` as written is enough.  A non-empty
query is written to the query field and `analyzeImage` then runs on that
state, so with an image held the request carries `q`. -/
theorem handleWakeWord_extracts_query :
    (∀ t : String, Stripped t.data (replaceWakePhrases t.data) ∧
      ∀ r, Stripped t.data r → extractQuery t = jsTrim ⟨r⟩) ∧
    (∀ (t : String) (s : AppState), extractQuery t ≠ "" →
      handleWakeWord t s =
        analyzeImage { updateWakeWordIndicator "Wake word detected! Processing..." true
          (emit (.consoleLog "👋 Wake word detected!") s) with queryInput := extractQuery t }) ∧
    (∀ q : String, q ≠ "" → jsTrim q = q → ¬ "aura".data <:+: q.data.map Char.toLower →
      extractQuery ("hey aura " ++ q) = q ∧
      ∀ s : AppState, truthy s.currentImageId = true →
        (handleWakeWord ("hey aura " ++ q) s).1.queryInput = q ∧
        (handleWakeWord ("hey aura " ++ q) s).1.requests = s.requests ++
          [Effect.fetchAnalyze s.sessionId
            ⟨s.currentImageId, q, s.voiceToggle, s.modelSelect, s.sessionId⟩]) ∧
    (∀ q : String, q ≠ "" → jsTrim q = q → (∀ c ∈ q.data, c.toLower = c) →
      ¬ "aura".data <:+: q.data → extractQuery ("hey aura " ++ q) = q) ∧
    extractQuery "hey aura what is this" = "what is this" := by
  have hmain : ∀ q : String, jsTrim q = q → ¬ "aura".data <:+: q.data.map Char.toLower →
      extractQuery ("hey aura " ++ q) = q := by
    intro q htrim hno
    have hdata : ("hey aura " ++ q).data = heyAura ++ ' ' :: q.data := by
      rw [String.data_append]
      rfl
    have h1 : replaceWakePhrases ("hey aura " ++ q).data = ' ' :: q.data := by
      unfold replaceWakePhrases
      rw [hdata, replaceFrom_heyAura _ (matchesAt_of_map_eq heyAura heyAura _ rfl),
        List.drop_left' (by rfl : heyAura.length = 8)]
      obtain ⟨h0, h1⟩ := no_match_at_whiteSpace ' ' q.data (by decide)
      rw [replaceFrom_keep _ _ h0 h1, replaceFrom_of_no_aura _ hno]
    unfold extractQuery
    rw [h1]
    unfold jsTrim
    simp only
    rw [trimChars_cons_whiteSpace _ _ (by decide)]
    exact htrim
  refine ⟨?_, ?_, ?_, ?_, by decide⟩
  rotate_left 3
  · intro q _ htrim hlow hno
    refine hmain q htrim ?_
    have : q.data.map Char.toLower = q.data := by
      conv_rhs => rw [← List.map_id q.data]
      exact List.map_congr_left hlow
    rw [this]
    exact hno
  · intro t
    refine ⟨stripped_replaceFrom t.data, ?_⟩
    intro r hr
    rw [stripped_sound hr]
    rfl
  · intro t s hq
    simp [handleWakeWord, hq]
  · intro q hne htrim hno
    have hq : extractQuery ("hey aura " ++ q) = q := hmain q htrim hno
    refine ⟨hq, ?_⟩
    intro s hs
    simp [handleWakeWord, hq, hne, analyzeImage, hs, htrim, updateWakeWordIndicator, emit,
      AppState.requests, Effect.isRequest]

/-- Witness for C2: the transcript `hey aura what is this` on an application
that holds the image `img_1`. -/
theorem handleWakeWord_extracts_query_witness :
    extractQuery ("hey aura " ++ "what is this") = "what is this" ∧
    (handleWakeWord ("hey aura " ++ "what is this") readyApp).1.queryInput = "what is this" ∧
    (handleWakeWord ("hey aura " ++ "what is this") readyApp).1.requests = readyApp.requests ++
      [Effect.fetchAnalyze readyApp.sessionId
        ⟨readyApp.currentImageId, "what is this", readyApp.voiceToggle, readyApp.modelSelect,
          readyApp.sessionId⟩] :=
  have h := handleWakeWord_extracts_query.2.2.1 "what is this" (by decide) (by decide) (by decide)
  ⟨h.1, h.2 readyApp (by decide)⟩

/-- C3: for a transcript made only of wake phrases and white space,
`handleWakeWord` extracts the empty query: it starts no analysis (nothing is
pending, no request is logged), leaves the query field as it was, shows the
informational status asking for a question, and puts the indicator back to the
listening prompt with its `listening` class off.  Its only outward call is the
console line. -/
theorem handleWakeWord_only_wake_phrases (t : String) (s : AppState)
    (h : OnlyWakePhrases t.data) :
    extractQuery t = "" ∧
    (handleWakeWord t s).2 = none ∧
    (handleWakeWord t s).1.queryInput = s.queryInput ∧
    (handleWakeWord t s).1.requests = s.requests ∧
    (handleWakeWord t s).1.status =
      ⟨"I heard you! Please ask a question about your image.", "status info", "block"⟩ ∧
    (handleWakeWord t s).1.indicatorText = listeningPrompt ∧
    (handleWakeWord t s).1.indicatorListening = false ∧
    (handleWakeWord t s).1 =
      { s with
        effects := s.effects ++ [Effect.consoleLog "👋 Wake word detected!"],
        status := ⟨"I heard you! Please ask a question about your image.", "status info",
          "block"⟩,
        indicatorText := listeningPrompt,
        indicatorListening := false } := by
  have hq : extractQuery t = "" := by
    unfold extractQuery jsTrim replaceWakePhrases
    simp only
    rw [trimChars_of_whiteSpace _ (replaceFrom_whiteSpace h)]
  simp [handleWakeWord, hq, showStatus, updateWakeWordIndicator, emit, AppState.requests,
    Effect.isRequest]

/-- Witness for C3: the transcripts `aura` and `hey aura`, each alone, on an
application that holds an image and has a question typed. -/
theorem handleWakeWord_only_wake_phrases_witness :
    (extractQuery "aura" = "" ∧ (handleWakeWord "aura" readyApp).2 = none ∧
      (handleWakeWord "aura" readyApp).1.queryInput = "  what is this? " ∧
      (handleWakeWord "aura" readyApp).1.indicatorText = "🎤 Say \"Hey AURA\" to start") ∧
    (extractQuery "hey aura" = "" ∧ (handleWakeWord "hey aura" readyApp).2 = none) :=
  have h1 := handleWakeWord_only_wake_phrases "aura" readyApp
    (OnlyWakePhrases.phrase "aura".data [] (Or.inr (by decide)) OnlyWakePhrases.nil)
  have h2 := handleWakeWord_only_wake_phrases "hey aura" readyApp
    (OnlyWakePhrases.phrase "hey aura".data [] (Or.inl (by decide)) OnlyWakePhrases.nil)
  ⟨⟨h1.1, h1.2.1, h1.2.2.1, h1.2.2.2.2.2.1⟩, h2.1, h2.2.1⟩

/-! ## Analysis: the trigger control -/

/-- C4, as amended: an attempt that issues its request disables the control
at that moment, and when the request settles the control is enabled, whatever
the outcome (rejected fetch, response that is not ok, unreadable or `null`
body, data) and whatever happened to the page meanwhile.  An attempt that fails
a precondition leaves the control exactly as it was.  On a page loaded with
the control enabled, in every reachable world a disabled control has an
analyze request in flight. -/
theorem analyzeImage_control :
    (∀ (s : AppState) (p : AnalyzePending), (analyzeImage s).2 = some p →
      (analyzeImage s).1.analyzeBtn.disabled = true ∧
      ∀ (o : FetchOutcome AnalyzeData) (s' : AppState),
        (analyzeImageSettled p o s').analyzeBtn.disabled = false) ∧
    (∀ s : AppState, (analyzeImage s).2 = none →
      (analyzeImage s).1.analyzeBtn = s.analyzeBtn) ∧
    (∀ (page : AppState) (w : World), page.analyzeBtn.disabled = false → Reachable page w →
      w.app.analyzeBtn.disabled = true → w.analyses ≠ []) := by
  refine ⟨?_, analyzeImage_none_analyzeBtn, fun page w hp hw => reachable_invariant hp hw⟩
  intro s p hp
  refine ⟨?_, fun o s' => by rw [analyzeImageSettled_analyzeBtn]⟩
  unfold analyzeImage at hp ⊢
  split
  · rename_i h1
    rw [if_pos h1] at hp
    cases hp
  · rename_i h1
    rw [if_neg h1] at hp
    dsimp only at hp ⊢
    split
    · rename_i h2
      rw [if_pos h2] at hp
      cases hp
    · rfl

/-- Witness for C4 as amended: the attempt on `readyApp` issues its request
and disables the control, its settlement with a 500 response enables it; the
attempt on `busyApp` fails the query precondition and leaves the control as it
was. -/
theorem analyzeImage_control_witness :
    ((analyzeImage readyApp).1.analyzeBtn.disabled = true ∧
      (analyzeImageSettled ⟨true⟩ (.resolved ⟨500, "Internal Server Error"⟩ (.malformed ""))
        (analyzeImage readyApp).1).analyzeBtn.disabled = false) ∧
    (analyzeImage busyApp).1.analyzeBtn = busyApp.analyzeBtn :=
  have h := analyzeImage_control.1 readyApp ⟨true⟩ (by decide)
  ⟨⟨h.1, h.2 _ _⟩, analyzeImage_control.2.1 busyApp (by decide)⟩

/-- Counterexample to C4 as stated: `busyApp` is reached from the loaded page
by `busyEvents`; there one analyze request is in flight and the control is
disabled.  An attempt made now (Enter in the empty query field) fails the
query precondition, and after it the control is still disabled. -/
theorem analyzeImage_precondition_failure_stays_disabled :
    (run (initialWorld "session_k3j9x0q2a" true none examplePage) busyEvents).map
        (fun w => (w.app, w.analyses.length)) = some (busyApp, 1) ∧
    (analyzeImage busyApp).2 = none ∧
    (analyzeImage busyApp).1.status.innerHTML = "Please enter a question about the image" ∧
    (analyzeImage busyApp).1.analyzeBtn.disabled = true := by
  refine ⟨by decide, by decide, by decide, by decide⟩

/-! ## Analysis: the wake-word prompt -/

/-- C5 on the code: when no image is held, `analyzeImage` returns at its first
check and leaves the indicator as it found it; so `handleWakeWord` with the
transcript `hey aura what is this` ends with the error status, no request, and
the indicator still reading `Wake word detected! Processing...` with its
`listening` class on.  The prompt is not reset. -/
theorem handleWakeWord_without_image_indicator (s : AppState) :
    (analyzeImage { s with currentImageId := .null }).1.indicatorText = s.indicatorText ∧
    (analyzeImage { s with currentImageId := .null }).1.indicatorListening
      = s.indicatorListening ∧
    (handleWakeWord "hey aura what is this" { s with currentImageId := .null }).2 = none ∧
    (handleWakeWord "hey aura what is this" { s with currentImageId := .null }).1.status
      = ⟨"Please upload an image first", "status error", "block"⟩ ∧
    (handleWakeWord "hey aura what is this" { s with currentImageId := .null }).1.indicatorText
      = "Wake word detected! Processing..." ∧
    (handleWakeWord "hey aura what is this"
      { s with currentImageId := .null }).1.indicatorListening = true := by
  have hq : extractQuery "hey aura what is this" = "what is this" := by decide
  simp [handleWakeWord, hq, analyzeImage, truthy, showStatus, updateWakeWordIndicator, emit]

/-! ## Analysis: the rendered result -/

theorem resultHtml_eq (d : AnalyzeData) (v : Bool) :
    resultHtml d v = "<strong>Analysis:</strong> " ++ toStr d.description ++
      ((if truthy d.audio_url && v then audioPlayerHtml (toStr d.audio_url) else "") ++
        (if truthy d.use_case_detected then useCaseHtml (toStr d.use_case_detected) else "")) := by
  unfold resultHtml
  apply String.ext
  by_cases h1 : (truthy d.audio_url && v) = true <;>
    by_cases h2 : truthy d.use_case_detected = true <;>
    simp [h1, h2, String.data_append]

theorem hasLtA_append (b : Bool) (x y : List Char) :
    hasLtA b (x ++ y) = (hasLtA b x || hasLtA (endsInLt b x) y) := by
  induction x generalizing b with
  | nil => simp [hasLtA, endsInLt]
  | cons c t ih => simp [hasLtA, endsInLt, ih, Bool.or_assoc]

theorem hasLtA_of_plain (x : List Char) (h : '<' ∉ x) :
    hasLtA false x = false ∧ endsInLt false x = false := by
  induction x with
  | nil => simp [hasLtA, endsInLt]
  | cons c t ih =>
    have hc : (c == '<') = false := by
      rw [beq_eq_false_iff_ne]
      intro h'
      exact h (by rw [h']; exact List.mem_cons_self _ _)
    have ht : '<' ∉ t := fun h' => h (List.mem_cons_of_mem _ h')
    simp [hasLtA, endsInLt, hc, ih ht]

theorem hasLtA_of_audio (l : List Char) (h : "<audio".data <:+: l) :
    hasLtA false l = true := by
  obtain ⟨pre, post, rfl⟩ := h
  rw [List.append_assoc, hasLtA_append]
  have : hasLtA (endsInLt false pre) ("<audio".data ++ post) = true := by
    show hasLtA _ ('<' :: 'a' :: ('u' :: 'd' :: 'i' :: 'o' :: [] ++ post)) = true
    simp [hasLtA]
  rw [this, Bool.or_true]

theorem audioElement_of_player (html src : String) (h : ContainsAudioPlayer html src) :
    ContainsAudioElement html := by
  obtain ⟨pre, post, hpp⟩ := h
  refine ⟨pre, (" controls class=\"audio-player\"><source src=\"" ++ src ++
    "\" type=\"audio/mpeg\">").data ++ post, ?_⟩
  rw [← hpp]
  simp [String.data_append]

theorem endsInLt_append (b : Bool) (x y : List Char) :
    endsInLt b (x ++ y) = endsInLt (endsInLt b x) y := by
  induction x generalizing b with
  | nil => simp [endsInLt]
  | cons c t ih => simp [endsInLt, ih]

theorem plain_append (x y : List Char)
    (hx : hasLtA false x = false ∧ endsInLt false x = false)
    (hy : hasLtA false y = false ∧ endsInLt false y = false) :
    hasLtA false (x ++ y) = false ∧ endsInLt false (x ++ y) = false := by
  rw [hasLtA_append, endsInLt_append, hx.1, hx.2, hy.1, hy.2]
  exact ⟨rfl, rfl⟩

theorem plain_result_has_no_audio (d : AnalyzeData)
    (hdesc : '<' ∉ (toStr d.description).data)
    (huse : '<' ∉ (toStr d.use_case_detected).data) :
    ¬ ContainsAudioElement ("<strong>Analysis:</strong> " ++ toStr d.description ++
      (if truthy d.use_case_detected then useCaseHtml (toStr d.use_case_detected) else "")) := by
  intro h
  have hs := hasLtA_of_audio _ h
  have hA : hasLtA false "<strong>Analysis:</strong> ".data = false ∧
      endsInLt false "<strong>Analysis:</strong> ".data = false := by decide
  have hB : hasLtA false "<br><small>Detected use case: ".data = false ∧
      endsInLt false "<br><small>Detected use case: ".data = false := by decide
  have hC : hasLtA false "</small>".data = false ∧
      endsInLt false "</small>".data = false := by decide
  have hAD := plain_append _ _ hA (hasLtA_of_plain _ hdesc)
  by_cases hu : truthy d.use_case_detected = true
  · have hU := plain_append _ _ (plain_append _ _ hB (hasLtA_of_plain _ huse)) hC
    have hall := plain_append _ _ hAD hU
    simp only [hu, if_true, useCaseHtml, String.data_append] at hs
    rw [hall.1] at hs
    exact Bool.false_ne_true hs
  · simp only [hu, Bool.false_eq_true, if_false, String.data_append] at hs
    rw [List.append_nil] at hs
    exact Bool.false_ne_true (hAD.1.symm.trans hs)

/-- C6, as amended: after a successful analyze response the status area holds
the result markup built with the voice flag read when `analyzeImage` was called
(a later change of the toggle does not matter).  When the description and the
use-case label of the response are plain text (no `<` in them), that markup
contains the inline audio player with the response's `audio_url` as source
exactly when `audio_url` is truthy and the flag was on, and otherwise contains
no audio element at all: it is the analysis text followed only by the use-case
annotation, if any. -/
theorem analyzeImageSettled_audio (s s' : AppState) (p : AnalyzePending) (r : Response)
    (d : AnalyzeData) (hp : (analyzeImage s).2 = some p) (hr : r.ok = true)
    (hdesc : '<' ∉ (toStr d.description).data)
    (huse : '<' ∉ (toStr d.use_case_detected).data) :
    (analyzeImageSettled p (.resolved r (.value d)) s').status =
      ⟨resultHtml d s.voiceToggle, "status success", "block"⟩ ∧
    (ContainsAudioPlayer (analyzeImageSettled p (.resolved r (.value d)) s').status.innerHTML
        (toStr d.audio_url)
      ↔ (truthy d.audio_url = true ∧ s.voiceToggle = true)) ∧
    (ContainsAudioElement (analyzeImageSettled p (.resolved r (.value d)) s').status.innerHTML
      ↔ (truthy d.audio_url = true ∧ s.voiceToggle = true)) ∧
    (¬ (truthy d.audio_url = true ∧ s.voiceToggle = true) →
      (analyzeImageSettled p (.resolved r (.value d)) s').status.innerHTML =
        "<strong>Analysis:</strong> " ++ toStr d.description ++
          (if truthy d.use_case_detected then useCaseHtml (toStr d.use_case_detected)
            else "")) := by
  have hv : p.voiceResponse = s.voiceToggle := by
    unfold analyzeImage at hp
    split at hp
    · cases hp
    · dsimp only at hp
      split at hp
      · cases hp
      · cases hp
        rfl
  have hst : (analyzeImageSettled p (.resolved r (.value d)) s').status =
      ⟨resultHtml d s.voiceToggle, "status success", "block"⟩ := by
    simp [analyzeImageSettled, hr, hv, updateWakeWordIndicator, showStatus_status]
  have hplain : ¬ (truthy d.audio_url = true ∧ s.voiceToggle = true) →
      resultHtml d s.voiceToggle = "<strong>Analysis:</strong> " ++ toStr d.description ++
        (if truthy d.use_case_detected then useCaseHtml (toStr d.use_case_detected)
          else "") := by
    intro hn
    rw [resultHtml_eq]
    have hc : (truthy d.audio_url && s.voiceToggle) = false := by
      rw [Bool.and_eq_false_iff]
      by_cases ha : truthy d.audio_url = true
      · right
        by_contra hv'
        exact hn ⟨ha, by simpa using hv'⟩
      · left
        simpa using ha
    apply String.ext
    simp [hc, String.data_append]
  have hplayer : (truthy d.audio_url = true ∧ s.voiceToggle = true) →
      ContainsAudioPlayer (resultHtml d s.voiceToggle) (toStr d.audio_url) := by
    rintro ⟨ha, hvt⟩
    rw [resultHtml_eq]
    refine ⟨("<strong>Analysis:</strong> " ++ toStr d.description ++ "<br><br>").data,
      ("Your browser does not support audio.</audio>" ++
        (if truthy d.use_case_detected then useCaseHtml (toStr d.use_case_detected)
          else "")).data, ?_⟩
    simp [ha, hvt, audioPlayerHtml, String.data_append]
  have hnone : ¬ (truthy d.audio_url = true ∧ s.voiceToggle = true) →
      ¬ ContainsAudioElement (resultHtml d s.voiceToggle) := by
    intro hn
    rw [hplain hn]
    exact plain_result_has_no_audio d hdesc huse
  refine ⟨hst, ?_, ?_, ?_⟩
  · rw [hst]
    constructor
    · intro h
      by_contra hn
      exact hnone hn (audioElement_of_player _ _ h)
    · exact hplayer
  · rw [hst]
    constructor
    · intro h
      by_contra hn
      exact hnone hn h
    · intro h
      exact audioElement_of_player _ _ (hplayer h)
  · intro hn
    rw [hst]
    exact hplain hn

/-- Witness for C6 as amended: the same plain-text response, carrying an
`audio_url`, settles an attempt made with voice response on (`readyApp`) and one
made with it off. -/
theorem analyzeImageSettled_audio_witness :
    ContainsAudioPlayer
      (analyzeImageSettled ⟨true⟩
        (.resolved ⟨200, "OK"⟩ (.value ⟨.string "A cat.", .string "/audio/a1.mp3", .undefined⟩))
        (analyzeImage readyApp).1).status.innerHTML
      "/audio/a1.mp3" ∧
    ¬ ContainsAudioElement
      (analyzeImageSettled ⟨false⟩
        (.resolved ⟨200, "OK"⟩ (.value ⟨.string "A cat.", .string "/audio/a1.mp3", .undefined⟩))
        (analyzeImage { readyApp with voiceToggle := false }).1).status.innerHTML :=
  ⟨(analyzeImageSettled_audio readyApp (analyzeImage readyApp).1 ⟨true⟩ ⟨200, "OK"⟩
      ⟨.string "A cat.", .string "/audio/a1.mp3", .undefined⟩ (by decide) (by decide)
      (by decide) (by decide)).2.1.2 (by decide),
    fun h => absurd ((analyzeImageSettled_audio { readyApp with voiceToggle := false }
      (analyzeImage { readyApp with voiceToggle := false }).1 ⟨false⟩ ⟨200, "OK"⟩
      ⟨.string "A cat.", .string "/audio/a1.mp3", .undefined⟩ (by decide) (by decide)
      (by decide) (by decide)).2.2.1.1 h) (by decide)⟩

/-- Counterexample to C6 as stated: the response `markupInDescription` carries
an `audio_url`, and its description itself holds the markup of a player for
that address.  With voice response off when analyze is called, the result
markup written to the status area still contains the audio player. -/
theorem analyzeImageSettled_audio_from_description :
    (analyzeImage { readyApp with voiceToggle := false }).2 = some ⟨false⟩ ∧
    ContainsAudioPlayer
      (analyzeImageSettled ⟨false⟩ (.resolved ⟨200, "OK"⟩ (.value markupInDescription))
        (analyzeImage { readyApp with voiceToggle := false }).1).status.innerHTML
      "/audio/a1.mp3" := by
  refine ⟨by decide, ?_⟩
  exact ⟨"<strong>Analysis:</strong> A web page with a player: ".data, "</audio>".data,
    by decide⟩

/-! ## Upload: the held identifier and the control -/

/-- C7: the call itself never changes `currentImageId`, and neither does any
sequence of events in which no upload settles with data; a settlement with
data stores the returned `image_id`, every other settlement (rejected fetch,
response that is not ok, unreadable or `null` body) leaves the identifier that
is held at that moment, so it stays usable for analysis.  The call is made by
a click on the upload control (the global function of lines 403-406 is its
only caller), and a disabled control delivers no click; so the control is
enabled when the call starts.  Then in every case it ends enabled: with no file
selected the call issues nothing and leaves it enabled; with a file selected
the call disables it for the time of the request and every settlement enables
it. -/
theorem uploadImage_identifier :
    (∀ s : AppState, (uploadImage s).1.currentImageId = s.currentImageId) ∧
    (∀ (w w' : World) (events : List Event), run w events = some w' →
      (∀ e ∈ events, e.storesImage = false) →
      w'.app.currentImageId = w.app.currentImageId) ∧
    (∀ (s' : AppState) (r : Response) (d : UploadData), r.ok = true →
      (uploadImageSettled (.resolved r (.value d)) s').currentImageId = d.image_id) ∧
    (∀ (s' : AppState) (message : String),
      (uploadImageSettled (.rejected message) s').currentImageId = s'.currentImageId) ∧
    (∀ (s' : AppState) (r : Response) (b : Body UploadData), r.ok = false →
      (uploadImageSettled (.resolved r b) s').currentImageId = s'.currentImageId) ∧
    (∀ (s' : AppState) (r : Response) (message : String),
      (uploadImageSettled (.resolved r (.malformed message)) s').currentImageId
        = s'.currentImageId ∧
      (uploadImageSettled (.resolved r (.nullBody message)) s').currentImageId
        = s'.currentImageId) ∧
    (∀ (s' : AppState) (o : FetchOutcome UploadData),
      (uploadImageSettled o s').currentImageId = s'.currentImageId →
      truthy s'.currentImageId = true → jsTrim s'.queryInput ≠ "" →
      (analyzeImage (uploadImageSettled o s')).2.isSome = true) ∧
    (∀ (s' : AppState) (o : FetchOutcome UploadData),
      (uploadImageSettled o s').uploadBtn = ⟨false, "Upload Image"⟩) ∧
    (∀ s : AppState, s.uploadBtn.disabled = false →
      (s.imageInputFiles = [] →
        (uploadImage s).2 = false ∧ (uploadImage s).1.effects = s.effects ∧
        (uploadImage s).1.uploadBtn.disabled = false) ∧
      (s.imageInputFiles ≠ [] →
        (uploadImage s).2 = true ∧ (uploadImage s).1.uploadBtn.disabled = true ∧
        ∀ (o : FetchOutcome UploadData) (s' : AppState),
          (uploadImageSettled o s').uploadBtn.disabled = false)) := by
  have hq : ∀ (o : FetchOutcome UploadData) (s' : AppState),
      (uploadImageSettled o s').queryInput = s'.queryInput := by
    intro o s'
    unfold uploadImageSettled
    simp only
    split
    · simp [showStatus]
    · split
      · simp [showStatus]
      · split <;> simp [showStatus, emit]
  refine ⟨uploadImage_currentImageId, fun w w' es h hes => run_currentImageId h hes,
    ?_, ?_, ?_, ?_, ?_, ?_, ?_⟩
  · intro s' r d hr
    simp [uploadImageSettled, hr, emit, showStatus_currentImageId]
  · intro s' m
    simp [uploadImageSettled, showStatus_currentImageId]
  · intro s' r b hr
    simp [uploadImageSettled, hr, showStatus_currentImageId]
  · intro s' r m
    constructor <;>
      by_cases hr : r.ok = true <;>
      simp [uploadImageSettled, hr, showStatus_currentImageId]
  · intro s' o hsame hid hquery
    rw [(analyzeImage_request_iff_aux (uploadImageSettled o s')).2]
    rw [hsame, hq]
    exact ⟨hid, hquery⟩
  · intro s' o
    simp [uploadImageSettled]
  · intro s hen
    constructor
    · intro hs
      simp [uploadImage, hs, showStatus_error_effects, showStatus_uploadBtn, hen]
    · intro hs
      cases hf : s.imageInputFiles with
      | nil => exact absurd hf hs
      | cons f fs => simp [uploadImage, hf, emit, uploadImageSettled]

/-- Witness for C7: with `img_1` held, a new upload that ends in a 503
response leaves `img_1` held and the control enabled; right after construction,
with no file selected and the control enabled, a call issues nothing and leaves
the control enabled. -/
theorem uploadImage_identifier_witness :
    (uploadImageSettled (.resolved ⟨503, "Service Unavailable"⟩ (.malformed ""))
      (uploadImage readyApp).1).currentImageId = (uploadImage readyApp).1.currentImageId ∧
    ((uploadImage readyApp).2 = true ∧ (uploadImage readyApp).1.uploadBtn.disabled = true ∧
      (uploadImageSettled (.resolved ⟨503, "Service Unavailable"⟩ (.malformed ""))
        (uploadImage readyApp).1).uploadBtn.disabled = false) ∧
    ((uploadImage freshApp).2 = false ∧ (uploadImage freshApp).1.effects = freshApp.effects ∧
      (uploadImage freshApp).1.uploadBtn.disabled = false) :=
  have h1 := (uploadImage_identifier.2.2.2.2.2.2.2.2 readyApp (by decide)).2 (by decide)
  ⟨uploadImage_identifier.2.2.2.2.1 (uploadImage readyApp).1 ⟨503, "Service Unavailable"⟩
      (.malformed "") (by decide),
    ⟨h1.1, h1.2.1, h1.2.2 _ _⟩,
    (uploadImage_identifier.2.2.2.2.2.2.2.2 freshApp (by decide)).1 (by decide)⟩

/-! ## Particle animation: one frame -/

theorem updateParticle_vx_val (sqrt : JsNumber → JsNumber) (c : Canvas) (m : Mouse)
    (p : Particle) :
    (updateParticle sqrt c m p).vx.val =
      if (p.x.add p.vx).val < 0 ∨ (p.x.add p.vx).val > c.width.val then -p.vx.val
      else p.vx.val := by
  have hv : (updateParticle sqrt c m p).vx =
      if (p.x.add p.vx).val < (JsNumber.ofRat 0).val ∨ (p.x.add p.vx).val > c.width.val then
        p.vx.mul (.ofRat (-1)) else p.vx := by
    unfold updateParticle
    dsimp only
    split
    · split <;> rfl
    · rfl
  rw [hv, JsNumber.ofRat_zero_val]
  split
  · exact JsNumber.mul_neg_one_val p.vx
  · rfl

theorem updateParticle_vy_val (sqrt : JsNumber → JsNumber) (c : Canvas) (m : Mouse)
    (p : Particle) :
    (updateParticle sqrt c m p).vy.val =
      if (p.y.add p.vy).val < 0 ∨ (p.y.add p.vy).val > c.height.val then -p.vy.val
      else p.vy.val := by
  have hv : (updateParticle sqrt c m p).vy =
      if (p.y.add p.vy).val < (JsNumber.ofRat 0).val ∨ (p.y.add p.vy).val > c.height.val then
        p.vy.mul (.ofRat (-1)) else p.vy := by
    unfold updateParticle
    dsimp only
    split
    · split <;> rfl
    · rfl
  rw [hv, JsNumber.ofRat_zero_val]
  split
  · exact JsNumber.mul_neg_one_val p.vy
  · rfl

/-- C8: one frame without a pointer moves a particle to `(x + vx, y + vy)`,
the sums being those of the program (line 86-87): the exact sums rounded to
double precision.  On each axis on its own the velocity component is negated
when that updated coordinate is below `0` or above the canvas extent, and kept
otherwise; the radius is kept.  The magnitude of a velocity component never
changes: not in one frame, with or without a pointer, and not over any number
of frames.  The last part shows the rounding at work: from
`x = 500 - 2^-44` with `vx = 2^-44 + 2^-54` on a canvas 500 wide the updated
coordinate is exactly `500`, which is not above the extent, and `vx` is
kept. -/
theorem updateParticle_no_pointer (sqrt : JsNumber → JsNumber) (c : Canvas) (p : Particle) :
    (updateParticle sqrt c Mouse.absent p).x = p.x.add p.vx ∧
    (updateParticle sqrt c Mouse.absent p).y = p.y.add p.vy ∧
    (updateParticle sqrt c Mouse.absent p).x.val = roundDouble (p.x.val + p.vx.val) ∧
    (updateParticle sqrt c Mouse.absent p).y.val = roundDouble (p.y.val + p.vy.val) ∧
    (updateParticle sqrt c Mouse.absent p).vx.val =
      (if (p.x.add p.vx).val < 0 ∨ (p.x.add p.vx).val > c.width.val then -p.vx.val
        else p.vx.val) ∧
    (updateParticle sqrt c Mouse.absent p).vy.val =
      (if (p.y.add p.vy).val < 0 ∨ (p.y.add p.vy).val > c.height.val then -p.vy.val
        else p.vy.val) ∧
    (updateParticle sqrt c Mouse.absent p).radius = p.radius ∧
    (∀ m : Mouse, |(updateParticle sqrt c m p).vx.val| = |p.vx.val| ∧
      |(updateParticle sqrt c m p).vy.val| = |p.vy.val|) ∧
    (∀ (m : Mouse) (n : Nat),
      |(frames sqrt c m n p).vx.val| = |p.vx.val| ∧
      |(frames sqrt c m n p).vy.val| = |p.vy.val|) ∧
    (∀ ps : List Particle,
      animate sqrt c Mouse.absent ps = ps.map (updateParticle sqrt c Mouse.absent)) ∧
    ((updateParticle sqrt ⟨.ofRat 500, .ofRat 600⟩ Mouse.absent
        ⟨.ofRat (500 - 1 / 2 ^ 44), .ofRat 300, .ofRat (1 / 2 ^ 44 + 1 / 2 ^ 54), .ofRat 0,
          .ofRat 2⟩).x.val = 500 ∧
      (updateParticle sqrt ⟨.ofRat 500, .ofRat 600⟩ Mouse.absent
        ⟨.ofRat (500 - 1 / 2 ^ 44), .ofRat 300, .ofRat (1 / 2 ^ 44 + 1 / 2 ^ 54), .ofRat 0,
          .ofRat 2⟩).vx.val = 1 / 2 ^ 44 + 1 / 2 ^ 54) := by
  have habs : ∀ (m : Mouse) (q : Particle),
      |(updateParticle sqrt c m q).vx.val| = |q.vx.val| ∧
      |(updateParticle sqrt c m q).vy.val| = |q.vy.val| := by
    intro m q
    rw [updateParticle_vx_val, updateParticle_vy_val]
    constructor <;> split <;> simp
  have hframes : ∀ (m : Mouse) (n : Nat) (q : Particle),
      |(frames sqrt c m n q).vx.val| = |q.vx.val| ∧
      |(frames sqrt c m n q).vy.val| = |q.vy.val| := by
    intro m n
    induction n with
    | zero => exact fun q => ⟨rfl, rfl⟩
    | succ n ih =>
      intro q
      simp only [frames]
      rw [(ih (updateParticle sqrt c m q)).1, (ih (updateParticle sqrt c m q)).2]
      exact habs m q
  have hx : roundDouble (500 - 1 / 2 ^ 44) = 500 - 1 / 2 ^ 44 := by
    have := roundDouble_normal 8796093022207999 8 (by norm_num) (by norm_num) (by norm_num)
    norm_num at this ⊢
    exact this
  have hv : roundDouble (1 / 2 ^ 44 + 1 / 2 ^ 54) = 1 / 2 ^ 44 + 1 / 2 ^ 54 := by
    have := roundDouble_normal 4507997673881600 (-44) (by norm_num) (by norm_num)
      (by norm_num)
    norm_num at this ⊢
    exact this
  have hw : roundDouble 500 = 500 := by
    have := roundDouble_normal 8796093022208000 8 (by norm_num) (by norm_num) (by norm_num)
    norm_num at this
    exact this
  have hsum : roundDouble (500 - 1 / 2 ^ 44 + (1 / 2 ^ 44 + 1 / 2 ^ 54)) = 500 := by
    have := roundDouble_eval (500 - 1 / 2 ^ 44 + (1 / 2 ^ 44 + 1 / 2 ^ 54)) 8
      8796093022208000 (by norm_num)
      (by rw [abs_of_pos (by norm_num)]; norm_num)
      (by rw [abs_of_pos (by norm_num)]; norm_num)
      (roundHalfEven_of_near _ _ (by norm_num) (by norm_num))
    norm_num at this ⊢
    exact this
  have hxval : (JsNumber.add (.ofRat (500 - 1 / 2 ^ 44))
      (.ofRat (1 / 2 ^ 44 + 1 / 2 ^ 54))).val = 500 := by
    show roundDouble (roundDouble (500 - 1 / 2 ^ 44) + roundDouble (1 / 2 ^ 44 + 1 / 2 ^ 54))
      = 500
    rw [hx, hv, hsum]
  refine ⟨rfl, rfl, rfl, rfl, updateParticle_vx_val sqrt c _ p, updateParticle_vy_val sqrt c _ p,
    rfl, fun m => habs m p, fun m n => hframes m n p, fun ps => rfl, hxval, ?_⟩
  rw [updateParticle_vx_val, hxval]
  have hwv : (JsNumber.ofRat 500).val = 500 := hw
  have hvv : (JsNumber.ofRat (1 / 2 ^ 44 + 1 / 2 ^ 54)).val = 1 / 2 ^ 44 + 1 / 2 ^ 54 := hv
  simp only [hwv, hvv]
  norm_num

/-! ## Speech recognition: restart on end -/

theorem timeoutsOf_restart (s : AppState) (startError : Option String) :
    timeoutsOf ((restartRecognition startError s).effects.drop s.effects.length) = [] := by
  cases startError <;> simp [restartRecognition, emit, timeoutsOf]

/-- C9: in every reachable world `isListening` is `false`; so the `onend`
handler resets the indicator to the listening prompt and makes exactly one
outward call, the `setTimeout` with a delay of 1000 ms, which adds exactly one
timeout to those scheduled.  What is scheduled is the restart: when that
timeout runs, its callback calls `recognition.start()`, and nothing else when
the call succeeds.  When `recognition.start()` throws, the exception is caught
and the only trace is a console line: the status area and every other part of
the page stay as they are. -/
theorem onend_schedules_restart (page : AppState) (w : World) (h : Reachable page w) :
    w.app.isListening = false ∧
    onend w.app =
      { w.app with
        indicatorText := listeningPrompt,
        indicatorListening := false,
        effects := w.app.effects ++ [Effect.setTimeout .restartRecognition 1000] } ∧
    (w.app.hasRecognition = true →
      ∃ w', step w .recognitionEnded = some w' ∧ w'.app = onend w.app ∧
        w'.timers = w.timers ++ [.restartRecognition] ∧
        ∀ startError : Option String,
          ∃ w'', step w' (.timeout w.timers.length startError) = some w'' ∧
            w''.app = restartRecognition startError (onend w.app) ∧
            w''.timers = w.timers ∧ w''.app.status = w.app.status) ∧
    (∀ s : AppState,
      restartRecognition none s = { s with effects := s.effects ++ [Effect.recognitionStart] }) ∧
    (∀ (error : String) (s : AppState),
      restartRecognition (some error) s =
        { s with effects := s.effects ++
            [Effect.recognitionStart,
              Effect.consoleLog ("Recognition restart failed: " ++ error)] }) := by
  have hl := reachable_isListening h
  have hend : onend w.app =
      { w.app with
        indicatorText := listeningPrompt,
        indicatorListening := false,
        effects := w.app.effects ++ [Effect.setTimeout .restartRecognition 1000] } := by
    simp [onend, hl, emit, updateWakeWordIndicator]
  refine ⟨hl, hend, ?_, ?_, ?_⟩
  · intro hr
    have htimers : (w.advance (onend w.app)).timers = w.timers ++ [.restartRecognition] := by
      simp [World.advance, hend, timeoutsOf]
    refine ⟨w.advance (onend w.app), by simp [step, hr], rfl, htimers, ?_⟩
    intro startError
    have hget : (w.advance (onend w.app)).timers.get? w.timers.length
        = some .restartRecognition := by
      rw [htimers]
      simp
    refine ⟨{ w.advance (onend w.app) with
        timers := (w.advance (onend w.app)).timers.eraseIdx w.timers.length }.advance
          (restartRecognition startError (w.advance (onend w.app)).app), ?_, rfl, ?_, ?_⟩
    · simp only [step, hget]
    · simp only [World.advance]
      rw [timeoutsOf_restart, List.append_nil]
      have : (w.timers ++ timeoutsOf (List.drop w.app.effects.length (onend w.app).effects))
          = w.timers ++ [.restartRecognition] := htimers
      rw [this, List.eraseIdx_append_of_length_le (Nat.le_refl _), Nat.sub_self]
      simp [List.eraseIdx]
    · simp only [World.advance]
      rw [hend]
      cases startError <;> simp [restartRecognition, emit]
  · intro s
    simp [restartRecognition, emit]
  · intro error s
    simp [restartRecognition, emit]

/-- Witness for C9: the world after the voice session `voiceEvents`, where the
recogniser ends its session and the scheduled timeout then runs with a
`recognition.start()` that succeeds. -/
theorem onend_schedules_restart_witness :
    run (initialWorld "session_k3j9x0q2a" true none examplePage) voiceEvents
      = some voiceWorld ∧
    voiceWorld.app.isListening = false ∧
    (onend voiceWorld.app).effects =
      voiceWorld.app.effects ++ [Effect.setTimeout .restartRecognition 1000] ∧
    ∃ w' w'', step voiceWorld .recognitionEnded = some w' ∧
      step w' (.timeout voiceWorld.timers.length none) = some w'' ∧
      w''.app.effects = voiceWorld.app.effects ++
        [Effect.setTimeout .restartRecognition 1000, Effect.recognitionStart] :=
  have hrun : run (initialWorld "session_k3j9x0q2a" true none examplePage) voiceEvents
      = some voiceWorld := by
    have hs : (run (initialWorld "session_k3j9x0q2a" true none examplePage)
        voiceEvents).isSome = true := by decide
    obtain ⟨w, hw⟩ := Option.isSome_iff_exists.mp hs
    simp [voiceWorld, hw]
  have h := onend_schedules_restart examplePage voiceWorld
    ⟨"session_k3j9x0q2a", true, none, voiceEvents, hrun⟩
  have hrec : voiceWorld.app.hasRecognition = true := by decide
  ⟨hrun, h.1, congrArg AppState.effects h.2.1,
    (h.2.2.1 hrec).elim fun w' hw' =>
      (hw'.2.2.2 none).elim fun w'' hw'' =>
        ⟨w', w'', hw'.1, hw''.1, by
          rw [hw''.2.1, h.2.2.2.1, h.2.1]
          simp⟩⟩

/-! ## Particles a resize leaves outside the canvas -/

theorem frames_stranded (sqrt : JsNumber → JsNumber) (c : Canvas) (n : Nat) :
    ∀ p : Particle, c.width.val < p.x.val → c.width.val < p.x.val + p.vx.val →
      roundDouble (p.x.val + p.vx.val) = p.x.val + p.vx.val →
      ((frames sqrt c Mouse.absent n p).x.val = p.x.val ∧
        (frames sqrt c Mouse.absent n p).vx.val = p.vx.val) ∨
      ((frames sqrt c Mouse.absent n p).x.val = p.x.val + p.vx.val ∧
        (frames sqrt c Mouse.absent n p).vx.val = -p.vx.val) := by
  induction n with
  | zero => exact fun p _ _ _ => Or.inl ⟨rfl, rfl⟩
  | succ n ih =>
    intro p h1 h2 h3
    simp only [frames]
    have hx : (updateParticle sqrt c Mouse.absent p).x.val = p.x.val + p.vx.val := h3
    have hadd : (p.x.add p.vx).val = p.x.val + p.vx.val := h3
    have hv : (updateParticle sqrt c Mouse.absent p).vx.val = -p.vx.val := by
      rw [updateParticle_vx_val, hadd, if_pos (Or.inr h2)]
    have hback : p.x.val + p.vx.val + -p.vx.val = p.x.val := by ring
    have := ih (updateParticle sqrt c Mouse.absent p) (by rw [hx]; exact h2)
      (by rw [hx, hv, hback]; exact h1)
      (by rw [hx, hv, hback]; exact p.x.round_val)
    rw [hx, hv] at this
    rcases this with ⟨ha, hb⟩ | ⟨ha, hb⟩
    · exact Or.inr ⟨ha, hb⟩
    · refine Or.inl ⟨?_, ?_⟩
      · rw [ha, hback]
      · rw [hb, neg_neg]

/-- C10 on the code: the particle at `x = 800` with `vx = 1/8`, left outside
when the canvas shrank to a width of `500`, is outside after every number of
frames: its velocity is reversed in each frame, its `x` alternates between
`800` and `800.125`, and it never comes back inside `[0, 500]`.  All values on
this orbit are doubles and every sum is exact. -/
theorem stranded_particle_stays_outside (sqrt : JsNumber → JsNumber) (n : Nat) :
    shrunkCanvas.width.val = 500 ∧ strandedParticle.x.val = 800 ∧
    strandedParticle.vx.val = 1 / 8 ∧
    shrunkCanvas.width.val < (frames sqrt shrunkCanvas Mouse.absent n strandedParticle).x.val ∧
    ((frames sqrt shrunkCanvas Mouse.absent n strandedParticle).x.val = 800 ∨
      (frames sqrt shrunkCanvas Mouse.absent n strandedParticle).x.val = 800 + 1 / 8) := by
  have hw : shrunkCanvas.width.val = 500 := by
    show roundDouble 500 = 500
    have := roundDouble_normal 8796093022208000 8 (by norm_num) (by norm_num) (by norm_num)
    norm_num at this
    exact this
  have hx : strandedParticle.x.val = 800 := by
    show roundDouble 800 = 800
    have := roundDouble_normal 7036874417766400 9 (by norm_num) (by norm_num) (by norm_num)
    norm_num at this
    exact this
  have hvx : strandedParticle.vx.val = 1 / 8 := by
    show roundDouble (1 / 8) = 1 / 8
    have := roundDouble_normal 4503599627370496 (-3) (by norm_num) (by norm_num)
      (by norm_num)
    norm_num at this ⊢
    exact this
  have hsum : roundDouble (800 + 1 / 8) = 800 + 1 / 8 := by
    have := roundDouble_normal 7037973929394176 9 (by norm_num) (by norm_num) (by norm_num)
    norm_num at this ⊢
    exact this
  have h := frames_stranded sqrt shrunkCanvas n strandedParticle
    (by rw [hw, hx]; norm_num) (by rw [hw, hx, hvx]; norm_num) (by rw [hx, hvx]; exact hsum)
  rw [hx, hvx] at h
  refine ⟨hw, hx, hvx, ?_⟩
  rw [hw]
  rcases h with ⟨ha, _⟩ | ⟨ha, _⟩
  · rw [ha]
    exact ⟨by norm_num, Or.inl rfl⟩
  · rw [ha]
    exact ⟨by norm_num, Or.inr rfl⟩

end Aura
